import Mathlib

/-!
# nexus-event-stream, data plane: the signal projection

A shallow embedding of `data-plane/internal/domain/signal.go`,
`data-plane/internal/projection/signal.go`, `data-plane/internal/handler/signal.go`
and `data-plane/internal/consumer/consumer.go`, together with a model of the
Redis commands the projection issues (hashes and sorted sets) and of the
decoding `encoding/json` does for SignalEvent, followed by the properties of
the materialized view, the read API and the consume loop.

Conventions.
* Go `string` is `String`; Go `map[string]string` is an association list
  (`GoMap`) read with `GoMap.index` (the zero value `""` for a missing key).
* A Redis sorted set is a list of `(score, member)` entries kept in Redis
  iteration order (ascending score, ties by member bytes) without repeated
  members; scores are integers because every score the projection writes is a
  whole number (a Unix time or an ordinal 0..3) that a float64 holds exactly.
* Each round trip to the store takes a `link : Option StoreError`: `none` when
  the server executed the request and replied, `some err` when the client
  library reported `err`.
* `time.Parse(time.RFC3339, ·)` followed by `Unix()` is the parameter
  `tp : String → Option Int`; `rfc3339` is a reference instance for the strict
  `YYYY-MM-DDThh:mm:ss(Z|±hh:mm)` profile used in concrete evaluations.
* The reading of a payload text as a JSON value is the parameter
  `scan : String → Option JSON`; `readFlatObject` is a reference instance for
  flat objects used in concrete evaluations. What `json.Unmarshal` then stores
  in the struct is `unmarshalSignalEvent`.
* A Go slice result is the list of its elements. Where nil against empty
  matters (what fetchMany returns), `Slice` keeps the difference and
  `fetchManySlice`, `hydrateSignalsSlice` give the slice itself.
* A handler is the list of responses it writes; the body of a response is the
  value handed to the JSON encoder.
* One turn of the consume loop takes the result of the fetch and a script of
  attempts: for each Apply call what the store did with the batch and, after a
  failed call, whether the one second wait ended before the scope was cancelled.
-/

namespace Nexus

/-! ## domain/signal.go -/

/-- Action represents the CRUD operation that triggered the event. -/
abbrev Action := String

def ActionCreated : Action := "created"

def ActionUpdated : Action := "updated"

def ActionDeleted : Action := "deleted"

/-- SignalEvent represents an event received from the nexus.signals topic. -/
structure SignalEvent where
  Action : Action
  ID : String
  Title : String
  Content : String
  Priority : String
  Author : String
  CreatedAt : String
  UpdatedAt : String
  deriving DecidableEq, Repr

/-- Signal is the read model served by the API. -/
structure Signal where
  ID : String
  Title : String
  Content : String
  Priority : String
  Author : String
  CreatedAt : String
  UpdatedAt : String
  deriving DecidableEq, Repr

/-- A Go `map[string]string`, as an association list. -/
abbrev GoMap := List (String × String)

/-- Go map indexing `m[key]`: the stored value, or the zero value `""`. -/
def GoMap.index (m : GoMap) (key : String) : String :=
  match m.lookup key with
  | some value => value
  | none => ""

/-- A JSON value as `encoding/json` reads it from a payload. -/
inductive JSON where
  | null : JSON
  | bool (b : Bool) : JSON
  | number (text : String) : JSON
  | string (s : String) : JSON
  | array (items : List JSON) : JSON
  | object (members : List (String × JSON)) : JSON

/-- The errors of `json.Unmarshal`: the payload is not JSON, or a JSON value of
the named kind cannot be stored in the named struct field (the empty name for
the struct itself). -/
inductive ParseError where
  | syntaxError : ParseError
  | typeError (kind : String) (field : String) : ParseError
  deriving DecidableEq, Repr

/-- The JSON names of the fields of SignalEvent, from its struct tags. -/
def fieldNames : List String :=
  ["action", "id", "title", "content", "priority", "author", "created_at", "updated_at"]

/-- Case folding of one character of an object key: ASCII letters to upper
case, the Kelvin sign to K and the long s to S (the only characters outside
ASCII that fold to an ASCII letter). -/
def foldRune (c : Char) : Char :=
  if 97 ≤ c.toNat ∧ c.toNat ≤ 122 then Char.ofNat (c.toNat - 32)
  else if c.toNat = 0x212A then 'K'
  else if c.toNat = 0x17F then 'S'
  else c

/-- The folded form under which `encoding/json` compares an object key with a
field name when no field has exactly that name. -/
def foldName (key : String) : String :=
  String.mk (key.toList.map foldRune)

/-- The struct field an object key is stored in: the field with exactly that
name, else the field with the same folded name, else none (the member is
skipped). -/
def matchField (key : String) : Option String :=
  match fieldNames.find? (fun name => name = key) with
  | some name => some name
  | none => fieldNames.find? (fun name => foldName name = foldName key)

/-- The zero value of SignalEvent. -/
def SignalEvent.zero : SignalEvent :=
  { Action := "", ID := "", Title := "", Content := "", Priority := "", Author := "",
    CreatedAt := "", UpdatedAt := "" }

/-- Store a string in the field with the given JSON name. -/
def SignalEvent.set (e : SignalEvent) (field value : String) : SignalEvent :=
  if field = "action" then { e with Action := value }
  else if field = "id" then { e with ID := value }
  else if field = "title" then { e with Title := value }
  else if field = "content" then { e with Content := value }
  else if field = "priority" then { e with Priority := value }
  else if field = "author" then { e with Author := value }
  else if field = "created_at" then { e with CreatedAt := value }
  else if field = "updated_at" then { e with UpdatedAt := value }
  else e

/-- The first error is the one `Unmarshal` returns. -/
def saveError (saved : Option ParseError) (err : ParseError) : Option ParseError :=
  match saved with
  | some first => some first
  | none => some err

/-- One member of the payload object: skipped when its key matches no field;
a string is stored, null leaves the field as it is, any other value is a type
error and decoding goes on. -/
def decodeMember (state : SignalEvent × Option ParseError) (member : String × JSON) :
    SignalEvent × Option ParseError :=
  match matchField member.1 with
  | none => state
  | some field =>
    match member.2 with
    | .string s => (state.1.set field s, state.2)
    | .null => state
    | .bool _ => (state.1, saveError state.2 (.typeError "bool" field))
    | .number _ => (state.1, saveError state.2 (.typeError "number" field))
    | .array _ => (state.1, saveError state.2 (.typeError "array" field))
    | .object _ => (state.1, saveError state.2 (.typeError "object" field))

/-- The decoding `json.Unmarshal(data, &event)` does once the payload has been
read as a JSON value, starting from the zero event. -/
def unmarshalSignalEvent (value : JSON) : SignalEvent × Option ParseError :=
  match value with
  | .object members => members.foldl decodeMember (SignalEvent.zero, none)
  | .null => (SignalEvent.zero, none)
  | .bool _ => (SignalEvent.zero, some (.typeError "bool" ""))
  | .number _ => (SignalEvent.zero, some (.typeError "number" ""))
  | .string _ => (SignalEvent.zero, some (.typeError "string" ""))
  | .array _ => (SignalEvent.zero, some (.typeError "array" ""))

/-- ParseSignalEvent deserializes a JSON payload into a SignalEvent. It returns
the event together with the error; `scan` reads the payload text as a JSON
value, `none` when the text is not valid JSON. -/
def ParseSignalEvent (scan : String → Option JSON) (data : String) :
    SignalEvent × Option ParseError :=
  match scan data with
  | none => (SignalEvent.zero, some .syntaxError)
  | some value => unmarshalSignalEvent value

/-- Fields returns the event data as a flat map for Redis hash storage. -/
def SignalEvent.Fields (e : SignalEvent) : GoMap :=
  [ ("id", e.ID),
    ("title", e.Title),
    ("content", e.Content),
    ("priority", e.Priority),
    ("author", e.Author),
    ("created_at", e.CreatedAt),
    ("updated_at", e.UpdatedAt) ]

/-- SignalFromMap builds a Signal from a Redis hash result. -/
def SignalFromMap (data : GoMap) : Signal :=
  { ID := GoMap.index data "id",
    Title := GoMap.index data "title",
    Content := GoMap.index data "content",
    Priority := GoMap.index data "priority",
    Author := GoMap.index data "author",
    CreatedAt := GoMap.index data "created_at",
    UpdatedAt := GoMap.index data "updated_at" }

/-! ## The store: Redis hashes and sorted sets -/

/-- An error reported by the Redis client library. -/
structure StoreError where
  msg : String
  deriving DecidableEq, Repr

/-- The errors the projection returns: its own sentinel `ErrNotFound`
(`errors.New("signal not found")`), or a store error passed through as is. -/
inductive ProjError where
  | ErrNotFound : ProjError
  | store (err : StoreError) : ProjError
  deriving DecidableEq, Repr

deriving instance DecidableEq for Except

/-- One entry of a sorted set. -/
structure ZEntry where
  score : Int
  member : String
  deriving DecidableEq, Repr

/-- Redis iteration order of a sorted set: by score, ties by member bytes. -/
def ZEntry.le (a b : ZEntry) : Prop :=
  a.score < b.score ∨ (a.score = b.score ∧ a.member.toList ≤ b.member.toList)

instance ZEntry.decidableLe : DecidableRel ZEntry.le :=
  fun a b => inferInstanceAs
    (Decidable (a.score < b.score ∨ (a.score = b.score ∧ a.member.toList ≤ b.member.toList)))

instance ZEntry.isTotalLe : IsTotal ZEntry ZEntry.le :=
  ⟨fun a b => by
    unfold ZEntry.le
    rcases lt_trichotomy a.score b.score with h | h | h
    · exact Or.inl (Or.inl h)
    · rcases le_total a.member.toList b.member.toList with h' | h'
      · exact Or.inl (Or.inr ⟨h, h'⟩)
      · exact Or.inr (Or.inr ⟨h.symm, h'⟩)
    · exact Or.inr (Or.inl h)⟩

instance ZEntry.isTransLe : IsTrans ZEntry ZEntry.le :=
  ⟨fun a b c hab hbc => by
    unfold ZEntry.le at *
    rcases hab with h | ⟨h, h'⟩
    · rcases hbc with k | ⟨k, _⟩
      · exact Or.inl (lt_trans h k)
      · exact Or.inl (k ▸ h)
    · rcases hbc with k | ⟨k, k'⟩
      · exact Or.inl (h ▸ k)
      · exact Or.inr ⟨h.trans k, le_trans h' k'⟩⟩

instance ZEntry.isAntisymmLe : IsAntisymm ZEntry ZEntry.le :=
  ⟨fun a b hab hba => by
    unfold ZEntry.le at *
    rcases hab with h | ⟨h, h'⟩
    · rcases hba with k | ⟨k, _⟩
      · exact absurd h (not_lt_of_lt k)
      · exact absurd h (by omega)
    · rcases hba with k | ⟨_, k'⟩
      · exact absurd k (by omega)
      · have hm : a.member = b.member := String.toList_inj.mp (le_antisymm h' k')
        cases a; cases b; simp_all⟩

/-- A Redis sorted set. -/
@[ext]
structure ZSet where
  entries : List ZEntry
  sorted : entries.Sorted ZEntry.le
  nodup : (entries.map ZEntry.member).Nodup

/-- The empty sorted set (a key that does not exist). -/
def ZSet.empty : ZSet :=
  { entries := [], sorted := List.sorted_nil, nodup := List.nodup_nil }

/-- ZREM on one sorted set: drop the member if it is there. -/
def ZSet.rem (z : ZSet) (member : String) : ZSet :=
  { entries := z.entries.filter (fun e => decide (e.member ≠ member)),
    sorted := List.Pairwise.filter _ z.sorted,
    nodup := z.nodup.sublist ((List.filter_sublist z.entries).map ZEntry.member) }

/-- ZADD on one sorted set: add the member, or move it to the new score. -/
def ZSet.add (z : ZSet) (score : Int) (member : String) : ZSet :=
  { entries := (z.rem member).entries.orderedInsert ZEntry.le ⟨score, member⟩,
    sorted := (z.rem member).sorted.orderedInsert _ _,
    nodup := by
      have hperm := ((z.rem member).entries.perm_orderedInsert ZEntry.le ⟨score, member⟩).map
        ZEntry.member
      refine hperm.nodup_iff.mpr ?_
      rw [List.map_cons, List.nodup_cons]
      refine ⟨?_, (z.rem member).nodup⟩
      intro hmem
      obtain ⟨e, he, hm⟩ := List.mem_map.mp hmem
      have := (List.mem_filter.mp he).2
      simp at this
      exact this hm }

/-- ZSCORE on one sorted set: the score of the member, if it is there. -/
def ZSet.score? (z : ZSet) (member : String) : Option Int :=
  match z.entries.find? (fun e => decide (e.member = member)) with
  | some e => some e.score
  | none => none

/-- The members in iteration order. -/
def ZSet.members (z : ZSet) : List String :=
  z.entries.map ZEntry.member

/-- ZREVRANGE on one sorted set: members from highest to lowest rank, the
inclusive index range `[start, stop]`, negative indexes counting from the end. -/
def ZSet.revRange (z : ZSet) (start stop : Int) : List String :=
  let members := z.entries.reverse.map ZEntry.member
  let llen : Int := members.length
  let start := if start < 0 then llen + start else start
  let stop := if stop < 0 then llen + stop else stop
  let start := if start < 0 then 0 else start
  if start > stop ∨ start ≥ llen then []
  else
    let stop := if stop ≥ llen then llen - 1 else stop
    (members.drop start.toNat).take (stop - start + 1).toNat

/-- ZRANGEBYSCORE on one sorted set with inclusive bounds. -/
def ZSet.rangeByScore (z : ZSet) (min max : Int) : List String :=
  (z.entries.filter (fun e => decide (min ≤ e.score ∧ e.score ≤ max))).map ZEntry.member

/-- HSET of one field on one hash: overwrite the field, or add it. -/
def hsetField (h : GoMap) (field value : String) : GoMap :=
  if h.any (fun p => p.1 == field) then
    h.map (fun p => if p.1 = field then (field, value) else p)
  else h ++ [(field, value)]

/-- HSET of several fields on one hash; fields not named are kept. -/
def hsetAll (h : GoMap) (values : GoMap) : GoMap :=
  values.foldl (fun acc p => hsetField acc p.1 p.2) h

/-- The store contents: hashes by key and sorted sets by key. A key that does
not exist holds the empty hash, respectively the empty sorted set. -/
@[ext]
structure View where
  hashes : String → GoMap
  zsets : String → ZSet

/-- The store with no keys. -/
def View.empty : View :=
  { hashes := fun _ => [], zsets := fun _ => ZSet.empty }

/-- HSET key field value [field value ...]. -/
def HSet (key : String) (values : GoMap) (v : View) : View :=
  { v with hashes := Function.update v.hashes key (hsetAll (v.hashes key) values) }

/-- DEL key. -/
def Del (key : String) (v : View) : View :=
  { v with hashes := Function.update v.hashes key [] }

/-- ZADD key score member. -/
def ZAdd (key : String) (score : Int) (member : String) (v : View) : View :=
  { v with zsets := Function.update v.zsets key ((v.zsets key).add score member) }

/-- ZREM key member. -/
def ZRem (key : String) (member : String) (v : View) : View :=
  { v with zsets := Function.update v.zsets key ((v.zsets key).rem member) }

/-- Exec of a MULTI/EXEC pipeline: when the round trip succeeds the queued
commands have run in order as one unit. -/
def TxExec (link : Option StoreError) (cmds : List (View → View)) (v : View) :
    Except StoreError View :=
  match link with
  | some err => .error err
  | none => .ok (cmds.foldl (fun acc cmd => cmd acc) v)

/-- HGETALL key. -/
def HGetAll (link : Option StoreError) (v : View) (key : String) :
    Except StoreError GoMap :=
  match link with
  | some err => .error err
  | none => .ok (v.hashes key)

/-- ZREVRANGE key start stop. -/
def ZRevRange (link : Option StoreError) (v : View) (key : String) (start stop : Int) :
    Except StoreError (List String) :=
  match link with
  | some err => .error err
  | none => .ok ((v.zsets key).revRange start stop)

/-- ZRANGEBYSCORE key min max. -/
def ZRangeByScore (link : Option StoreError) (v : View) (key : String) (min max : Int) :
    Except StoreError (List String) :=
  match link with
  | some err => .error err
  | none => .ok ((v.zsets key).rangeByScore min max)

/-- Exec of a plain pipeline of HGETALL commands, one per key. -/
def PipelineHGetAll (link : Option StoreError) (v : View) (keys : List String) :
    Except StoreError (List GoMap) :=
  match link with
  | some err => .error err
  | none => .ok (keys.map v.hashes)

/-! ## projection/signal.go -/

def keyByCreatedAt : String := "signals:by_created_at"

def keyByPriority : String := "signals:by_priority"

/-- The Go map `priorityScores`, read by indexing: an absent key gives 0. -/
def priorityScores (priority : String) : Int :=
  if priority = "Low" then 1
  else if priority = "Medium" then 2
  else if priority = "High" then 3
  else 0

def signalKey (id : String) : String :=
  "signal:" ++ id

/-- The Unix seconds of an RFC 3339 timestamp, 0 when it does not parse. -/
def parseTimestamp (tp : String → Option Int) (value : String) : Int :=
  match tp value with
  | none => 0
  | some unix => unix

def upsert (tp : String → Option Int) (link : Option StoreError) (v : View)
    (event : SignalEvent) : Except StoreError View :=
  TxExec link
    [ HSet (signalKey event.ID) event.Fields,
      ZAdd keyByCreatedAt (parseTimestamp tp event.CreatedAt) event.ID,
      ZAdd keyByPriority (priorityScores event.Priority) event.ID ] v

def evict (link : Option StoreError) (v : View) (id : String) : Except StoreError View :=
  TxExec link
    [ Del (signalKey id),
      ZRem keyByCreatedAt id,
      ZRem keyByPriority id ] v

/-- Apply processes a signal event and updates the materialized view. -/
def Apply (tp : String → Option Int) (link : Option StoreError) (v : View)
    (event : SignalEvent) : Except StoreError View :=
  if event.Action = ActionDeleted then evict link v event.ID
  else upsert tp link v event

def hydrateSignals : List GoMap → List Signal
  | [] => []
  | data :: commands =>
    if data.length = 0 then hydrateSignals commands
    else SignalFromMap data :: hydrateSignals commands

def fetchMany (link : Option StoreError) (v : View) (ids : List String) :
    Except StoreError (List Signal) :=
  if ids.length = 0 then .ok []
  else
    match PipelineHGetAll link v (ids.map signalKey) with
    | .error err => .error err
    | .ok commands => .ok (hydrateSignals commands)

/-- ListByCreatedAt returns signals ordered by newest first. `scan` is the
round trip of the index scan, `fetch` the one of the hydration pipeline. -/
def ListByCreatedAt (scan fetch : Option StoreError) (v : View) (start stop : Int) :
    Except StoreError (List Signal) :=
  match ZRevRange scan v keyByCreatedAt start stop with
  | .error err => .error err
  | .ok ids => fetchMany fetch v ids

/-- ListByPriority returns signals filtered by priority level. The bound is the
ordinal rendered with `%g`; for 0, 1, 2, 3 the store reads back the same number. -/
def ListByPriority (scan fetch : Option StoreError) (v : View) (priority : String) :
    Except StoreError (List Signal) :=
  let score := priorityScores priority
  match ZRangeByScore scan v keyByPriority score score with
  | .error err => .error err
  | .ok ids => fetchMany fetch v ids

/-- FindByID returns a single signal from the projection. -/
def FindByID (link : Option StoreError) (v : View) (id : String) : Except ProjError Signal :=
  match HGetAll link v (signalKey id) with
  | .error err => .error (.store err)
  | .ok data =>
    if data.length = 0 then .error .ErrNotFound
    else .ok (SignalFromMap data)

/-- Health checks the Redis connection: the outcome of PING, as is. -/
def Health (link : Option StoreError) : Option StoreError :=
  link

/-! ## projection/signal.go: the slices fetchMany returns

The functions above return the elements of a slice as a list. The definitions
below follow the same source functions and keep what a list cannot: whether the
returned slice is nil. -/

/-- A Go slice value as the program observes it: the nil slice, or a slice
holding the given elements. The literal `[]T{}` and `make([]T, 0, n)` are
`of []`, which has no elements and is not nil. -/
inductive Slice (α : Type) where
  | nil : Slice α
  | of (elems : List α) : Slice α
deriving DecidableEq, Repr

/-- The elements of a slice; the nil slice has none. -/
def Slice.elems {α : Type} : Slice α → List α
  | .nil => []
  | .of elems => elems

/-- The Go expression `s == nil`. -/
def Slice.isNil {α : Type} : Slice α → Bool
  | .nil => true
  | .of _ => false

/-- The Go expression `len(s)`. -/
def Slice.len {α : Type} (s : Slice α) : Nat :=
  s.elems.length

/-- The Go expression `make([]T, 0, n)`: empty and not nil, whatever `n`. -/
def Slice.make {α : Type} (_capacity : Nat) : Slice α :=
  .of []

/-- The Go expression `append(s, x)`: never nil. -/
def Slice.append {α : Type} (s : Slice α) (x : α) : Slice α :=
  .of (s.elems ++ [x])

/-- The function hydrateSignals with the slice it returns: `signals` starts as
`make([]domain.Signal, 0, len(commands))` and the loop appends to it the Signal
of every command whose map is not empty. -/
def hydrateSignalsSlice (commands : List GoMap) : Slice Signal :=
  commands.foldl
    (fun signals data =>
      if data.length = 0 then signals else signals.append (SignalFromMap data))
    (Slice.make commands.length)

/-- The function fetchMany with both of its results, the slice and the error:
`[]domain.Signal{}, nil` for no ids, `nil, err` when the pipeline fails, and
`hydrateSignals(commands), nil` otherwise. -/
def fetchManySlice (link : Option StoreError) (v : View) (ids : List String) :
    Slice Signal × Option StoreError :=
  if ids.length = 0 then (.of [], none)
  else
    match PipelineHGetAll link v (ids.map signalKey) with
    | .error err => (.nil, some err)
    | .ok commands => (hydrateSignalsSlice commands, none)

/-- A Go result pair read as the functions above return it: the error when
there is one, the elements of the slice otherwise. -/
def Slice.toExcept {α : Type} : Slice α × Option StoreError → Except StoreError (List α)
  | (_, some err) => .error err
  | (s, none) => .ok s.elems

/-- The views the projection can produce: the empty store, and whatever a
successful Apply makes of a view already produced. -/
inductive Reachable (tp : String → Option Int) : View → Prop where
  | empty : Reachable tp View.empty
  | apply {v w : View} (link : Option StoreError) (event : SignalEvent) :
      Reachable tp v → Apply tp link v event = .ok w → Reachable tp w

/-- A run of Apply calls, each with the outcome of its round trip, stopping at
the first one that fails. -/
def replay (tp : String → Option Int) (v : View) :
    List (Option StoreError × SignalEvent) → Except StoreError View
  | [] => .ok v
  | (link, event) :: calls =>
    match Apply tp link v event with
    | .error err => .error err
    | .ok w => replay tp w calls

/-- The primary record of every id agrees with both indexes: either the id has
no record and is in neither index, or its record is the field map of an event
for that id and the indexes hold the id at that event's scores. -/
def Consistent (tp : String → Option Int) (v : View) : Prop :=
  ∀ id : String,
    (v.hashes (signalKey id) = [] ∧ id ∉ (v.zsets keyByCreatedAt).members ∧
      id ∉ (v.zsets keyByPriority).members) ∨
    (∃ e : SignalEvent, e.ID = id ∧ v.hashes (signalKey id) = e.Fields ∧
      (⟨parseTimestamp tp e.CreatedAt, id⟩ : ZEntry) ∈ (v.zsets keyByCreatedAt).entries ∧
      (⟨priorityScores e.Priority, id⟩ : ZEntry) ∈ (v.zsets keyByPriority).entries)

/-- Every primary record carries, in its `id` field, the id it is stored
under (the data model's "mapping from id to the field set of the Signal"). -/
def WellKeyed (v : View) : Prop :=
  ∀ id : String, v.hashes (signalKey id) ≠ [] → GoMap.index (v.hashes (signalKey id)) "id" = id

/-! ## A reference RFC 3339 reader -/

def digit? (c : Char) : Option Nat :=
  if 48 ≤ c.toNat ∧ c.toNat ≤ 57 then some (c.toNat - 48) else none

def twoDigits? (a b : Char) : Option Nat :=
  match digit? a, digit? b with
  | some x, some y => some (10 * x + y)
  | _, _ => none

def isLeapYear (y : Nat) : Bool :=
  y % 4 == 0 && (y % 100 != 0 || y % 400 == 0)

def daysInMonth (y m : Nat) : Nat :=
  if m = 2 then (if isLeapYear y then 29 else 28)
  else if m = 4 ∨ m = 6 ∨ m = 9 ∨ m = 11 then 30
  else if 1 ≤ m ∧ m ≤ 12 then 31
  else 0

/-- Days from 1970-01-01 to the given proleptic Gregorian date. -/
def daysFromCivil (y m d : Nat) : Int :=
  let yy : Int := if m ≤ 2 then (y : Int) - 1 else y
  let era : Int := yy / 400
  let yoe : Int := yy - era * 400
  let mp : Int := (((m : Int) + 9) % 12)
  let doy : Int := (153 * mp + 2) / 5 + d - 1
  let doe : Int := yoe * 365 + yoe / 4 - yoe / 100 + doy
  era * 146097 + doe - 719468

/-- Seconds since the epoch of a local date and time at a given offset, when
every component is in range. -/
def civilToUnix (y m d hh mm ss : Nat) (offset : Int) : Option Int :=
  if 1 ≤ m ∧ m ≤ 12 ∧ 1 ≤ d ∧ d ≤ daysInMonth y m ∧ hh ≤ 23 ∧ mm ≤ 59 ∧ ss ≤ 59 then
    some (daysFromCivil y m d * 86400 + hh * 3600 + mm * 60 + ss - offset)
  else none

/-- The date and time part `YYYY-MM-DDThh:mm:ss` (19 characters). -/
def dateTime? (cs : List Char) (offset : Int) : Option Int :=
  match cs with
  | [y1, y2, y3, y4, s1, m1, m2, s2, d1, d2, t, h1, h2, s3, n1, n2, s4, c1, c2] =>
    if s1 = '-' ∧ s2 = '-' ∧ t = 'T' ∧ s3 = ':' ∧ s4 = ':' then
      match twoDigits? y1 y2, twoDigits? y3 y4, twoDigits? m1 m2, twoDigits? d1 d2,
        twoDigits? h1 h2, twoDigits? n1 n2, twoDigits? c1 c2 with
      | some ya, some yb, some m, some d, some hh, some mm, some ss =>
        civilToUnix (100 * ya + yb) m d hh mm ss offset
      | _, _, _, _, _, _, _ => none
    else none
  | _ => none

/-- The zone part: `Z`, or `+hh:mm` / `-hh:mm`, as seconds east of UTC. -/
def zone? (cs : List Char) : Option Int :=
  match cs with
  | [z] => if z = 'Z' then some 0 else none
  | [sign, h1, h2, colon, m1, m2] =>
    if colon = ':' then
      match twoDigits? h1 h2, twoDigits? m1 m2 with
      | some hh, some mm =>
        if hh ≤ 23 ∧ mm ≤ 59 then
          if sign = '+' then some (((hh * 60 + mm) * 60 : Nat) : Int)
          else if sign = '-' then some (-(((hh * 60 + mm) * 60 : Nat) : Int))
          else none
        else none
      | _, _ => none
    else none
  | _ => none

/-- Reference instance of the timestamp reader for `YYYY-MM-DDThh:mm:ss`
followed by `Z` or `±hh:mm`: the Unix seconds, or `none` for any other text. -/
def rfc3339 (value : String) : Option Int :=
  let cs := value.toList
  match zone? (cs.drop 19) with
  | some offset => dateTime? (cs.take 19) offset
  | none => none

/-! ## handler/signal.go -/

/-- The value a handler hands to the JSON encoder: a list of Signals, one
Signal, or a `map[string]string`. -/
inductive Payload where
  | signals (list : List Signal) : Payload
  | signal (s : Signal) : Payload
  | object (fields : GoMap) : Payload
  deriving DecidableEq, Repr

/-- One response written to the `http.ResponseWriter`: the status code, the
Content-Type header and the value encoded as the body. -/
structure Response where
  status : Nat
  contentType : String
  body : Payload
  deriving DecidableEq, Repr

def StatusOK : Nat := 200

def StatusNotFound : Nat := 404

def StatusInternalServerError : Nat := 500

def StatusServiceUnavailable : Nat := 503

/-- The query string of a request, as its `key=value` pairs in order. -/
abbrev Query := List (String × String)

/-- The `Get` of `url.Values`: the first value of the key, `""` without one. -/
def Query.Get (query : Query) (key : String) : String :=
  match query.lookup key with
  | some value => value
  | none => ""

/-- A Go `error` value as a handler sees it: the sentinel ErrNotFound, an error
of the store client, or an error wrapping another one. -/
inductive GoError where
  | ErrNotFound : GoError
  | store (err : StoreError) : GoError
  | wrapped (text : String) (inner : GoError) : GoError
  deriving DecidableEq, Repr

/-- The test `errors.Is(err, projection.ErrNotFound)`, along the unwrap chain. -/
def isErrNotFound : GoError → Bool
  | .ErrNotFound => true
  | .store _ => false
  | .wrapped _ inner => isErrNotFound inner

/-- The error FindByID returns, as the `error` value the handler receives. -/
def ProjError.toGo : ProjError → GoError
  | .ErrNotFound => .ErrNotFound
  | .store err => .store err

def writeJSON (status : Nat) (data : Payload) : Response :=
  { status := status, contentType := "application/json", body := data }

def writeError (status : Nat) (message : String) : Response :=
  writeJSON status (.object [("error", message)])

def fetchSignals (scan fetch : Option StoreError) (v : View) (priority : String) :
    Except StoreError (List Signal) :=
  if priority ≠ "" then ListByPriority scan fetch v priority
  else ListByCreatedAt scan fetch v 0 49

/-- The handler of `GET /signals`: the responses it writes, in order. -/
def listSignals (scan fetch : Option StoreError) (v : View) (query : Query) : List Response :=
  let priority := query.Get "priority"
  match fetchSignals scan fetch v priority with
  | .error _ => [writeError StatusInternalServerError "failed to list signals"]
  | .ok signals => [writeJSON StatusOK (.signals signals)]

/-- The body of getSignal after its FindByID call, for any outcome of the call. -/
def getSignalWith (found : Except GoError Signal) : List Response :=
  match found with
  | .error err =>
    if isErrNotFound err then [writeError StatusNotFound "signal not found"]
    else [writeError StatusInternalServerError "failed to get signal"]
  | .ok signal => [writeJSON StatusOK (.signal signal)]

/-- The handler of `GET /signals/{id}`: the responses it writes, in order. -/
def getSignal (link : Option StoreError) (v : View) (id : String) : List Response :=
  getSignalWith
    (match FindByID link v id with
     | .error err => .error err.toGo
     | .ok signal => .ok signal)

/-- The handler of `GET /health`: the responses it writes, in order. -/
def health (link : Option StoreError) : List Response :=
  match Health link with
  | some _ => [writeError StatusServiceUnavailable "redis unhealthy"]
  | none => [writeJSON StatusOK (.object [("status", "ok")])]

/-! ## A reference JSON reader for flat objects -/

def isSpace (c : Char) : Bool :=
  c = ' ' || c = '\t' || c = '\n' || c = '\r'

def skipSpace : List Char → List Char
  | [] => []
  | c :: cs => if isSpace c then skipSpace cs else c :: cs

/-- The characters of a string literal after its opening quote, and the text
after the closing quote. Escapes are outside the profile. -/
def readStringBody : List Char → Option (List Char × List Char)
  | [] => none
  | c :: cs =>
    if c = '"' then some ([], cs)
    else if c = '\\' ∨ c.toNat < 32 then none
    else
      match readStringBody cs with
      | some (body, rest) => some (c :: body, rest)
      | none => none

/-- The leading decimal digits, and the text after them. -/
def readDigits : List Char → List Char × List Char
  | [] => ([], [])
  | c :: cs =>
    if 48 ≤ c.toNat ∧ c.toNat ≤ 57 then ((readDigits cs).1.cons c, (readDigits cs).2)
    else ([], c :: cs)

/-- An integer literal: an optional minus sign, then `0` or digits that do not
start with `0`. -/
def readInteger (cs : List Char) : Option (JSON × List Char) :=
  let body := if cs.head? = some '-' then cs.drop 1 else cs
  let sign := if cs.head? = some '-' then ['-'] else []
  match readDigits body with
  | ([], _) => none
  | (d :: ds, rest) =>
    if d = '0' ∧ ds ≠ [] then none
    else some (.number (String.mk (sign ++ d :: ds)), rest)

/-- A member value of the profile: a string, `null`, `true`, `false` or an
integer. -/
def readScalar (cs : List Char) : Option (JSON × List Char) :=
  match cs with
  | [] => none
  | c :: rest =>
    if c = '"' then
      match readStringBody rest with
      | some (body, after) => some (.string (String.mk body), after)
      | none => none
    else if "null".toList.isPrefixOf cs then some (.null, cs.drop 4)
    else if "true".toList.isPrefixOf cs then some (.bool true, cs.drop 4)
    else if "false".toList.isPrefixOf cs then some (.bool false, cs.drop 5)
    else readInteger cs

/-- The members of an object from the first key on, up to and including the
closing brace. -/
def readMembers : Nat → List Char → Option (List (String × JSON) × List Char)
  | 0, _ => none
  | fuel + 1, cs =>
    match cs with
    | [] => none
    | quote :: afterQuote =>
      if quote ≠ '"' then none
      else
        match readStringBody afterQuote with
        | none => none
        | some (key, afterKey) =>
          match skipSpace afterKey with
          | [] => none
          | colon :: afterColon =>
            if colon ≠ ':' then none
            else
              match readScalar (skipSpace afterColon) with
              | none => none
              | some (value, afterValue) =>
                match skipSpace afterValue with
                | [] => none
                | next :: afterNext =>
                  if next = '}' then some ([(String.mk key, value)], afterNext)
                  else if next = ',' then
                    match readMembers fuel (skipSpace afterNext) with
                    | none => none
                    | some (members, rest) => some ((String.mk key, value) :: members, rest)
                  else none

/-- Reference instance of the payload reader: the JSON object of a text made
of one flat object whose member values are strings without escapes, `null`,
`true`, `false` or integers; `none` for every other text. -/
def readFlatObject (data : String) : Option JSON :=
  match skipSpace data.toList with
  | [] => none
  | open_ :: afterOpen =>
    if open_ ≠ '{' then none
    else
      match skipSpace afterOpen with
      | [] => none
      | first :: afterFirst =>
        if first = '}' then
          (if skipSpace afterFirst = [] then some (.object []) else none)
        else
          match readMembers (first :: afterFirst).length (first :: afterFirst) with
          | none => none
          | some (members, rest) =>
            if skipSpace rest = [] then some (.object members) else none

/-! ## consumer/consumer.go -/

/-- A message fetched from the log. -/
structure Message where
  Offset : Int
  Value : String
  deriving DecidableEq, Repr

/-- What became of one MULTI/EXEC batch: the store ran it and said so; the
store did not run it and the client reports the error; or the store ran it but
the client reports an error all the same (the reply did not arrive: a timeout,
a dropped connection, a cancelled scope). -/
inductive ExecOutcome where
  | done : ExecOutcome
  | refused (err : StoreError) : ExecOutcome
  | lost (err : StoreError) : ExecOutcome
  deriving DecidableEq, Repr

/-- What the client reports for the round trip. -/
def ExecOutcome.link : ExecOutcome → Option StoreError
  | .done => none
  | .refused err => some err
  | .lost err => some err

/-- Whether the store ran the batch. -/
def ExecOutcome.executed : ExecOutcome → Bool
  | .done => true
  | .refused _ => false
  | .lost _ => true

/-- One call of Apply against the live store: the error the caller gets (none
for success) and the store after the call. -/
def ApplyCall (tp : String → Option Int) (outcome : ExecOutcome) (v : View)
    (event : SignalEvent) : Option StoreError × View :=
  let after :=
    if outcome.executed then
      match Apply tp none v event with
      | .ok w => w
      | .error _ => v
    else v
  match Apply tp outcome.link v event with
  | .ok _ => (none, after)
  | .error err => (some err, after)

/-- What the consumer does to the outside, in order: an Apply call with the
error it returned, or a CommitMessages call for a message. -/
inductive Effect where
  | apply (event : SignalEvent) (err : Option StoreError) : Effect
  | commit (message : Message) : Effect
  deriving DecidableEq, Repr

/-- applyWithRetry retries the projection until success or context
cancellation. Each attempt of the script gives the outcome of the Apply call
and, for a failed call, what `wait` returns (true: the second passed, false:
the scope was cancelled). The result is `some true` on success, `some false`
on cancellation, `none` while the loop is still running when the script ends;
with it come the store and the calls made. -/
def applyWithRetry (tp : String → Option Int) (event : SignalEvent) :
    View → List (ExecOutcome × Bool) → Option Bool × View × List Effect
  | v, [] => (none, v, [])
  | v, (outcome, waited) :: attempts =>
    match ApplyCall tp outcome v event with
    | (none, w) => (some true, w, [.apply event none])
    | (some err, w) =>
      if waited then
        ((applyWithRetry tp event w attempts).1, (applyWithRetry tp event w attempts).2.1,
          Effect.apply event (some err) :: (applyWithRetry tp event w attempts).2.2)
      else (some false, w, [.apply event (some err)])

/-- The result of one processNext: whether it returned (it has not while the
retry loop is still running), the store, and what it did, in order. -/
structure Processed where
  returned : Bool
  view : View
  effects : List Effect

/-- One turn of the consume loop for the given result of FetchMessage. An
error of CommitMessages is only logged. -/
def processNext (tp : String → Option Int) (scan : String → Option JSON) (v : View)
    (fetched : Except String Message) (attempts : List (ExecOutcome × Bool)) : Processed :=
  match fetched with
  | .error _ => { returned := true, view := v, effects := [] }
  | .ok message =>
    match ParseSignalEvent scan message.Value with
    | (_, some _) => { returned := true, view := v, effects := [.commit message] }
    | (event, none) =>
      match applyWithRetry tp event v attempts with
      | (none, w, effects) => { returned := false, view := w, effects := effects }
      | (some false, w, effects) => { returned := true, view := w, effects := effects }
      | (some true, w, effects) =>
        { returned := true, view := w, effects := effects ++ [.commit message] }

/-- Whether an effect is a commit. -/
def Effect.isCommit : Effect → Bool
  | .commit _ => true
  | .apply _ _ => false

/-! ## Sample data (projection/signal_test.go) -/

def sampleEvent (action : Action) (id : String) : SignalEvent :=
  { Action := action,
    ID := id,
    Title := "Server Alert",
    Content := "CPU at 95%",
    Priority := "High",
    Author := "otavio",
    CreatedAt := "2026-02-23T15:00:00-03:00",
    UpdatedAt := "2026-02-23T15:05:00-03:00" }

/-- The delete event of the tests: only the action and the id are set. -/
def deleteEvent (id : String) : SignalEvent :=
  { Action := ActionDeleted, ID := id, Title := "", Content := "", Priority := "",
    Author := "", CreatedAt := "", UpdatedAt := "" }

/-- The `updated` event of TestApply_Updated. -/
def updatedEvent : SignalEvent :=
  { sampleEvent ActionUpdated "signal-1" with Title := "Updated Alert", Priority := "Low" }

/-- The run of TestApply_Updated: create `signal-1`, then update it. -/
def updatedRun : List (Option StoreError × SignalEvent) :=
  [(none, sampleEvent ActionCreated "signal-1"), (none, updatedEvent)]

/-- The store after the given calls, all read with the reference timestamp
reader, starting from the empty store. -/
def viewAfter (calls : List (Option StoreError × SignalEvent)) : View :=
  match replay rfc3339 View.empty calls with
  | .ok v => v
  | .error _ => View.empty

/-- An event whose action is none of created, updated, deleted. -/
def archivedEvent : SignalEvent :=
  sampleEvent "archived" "signal-1"

/-- The events `older` and `newer` of TestListByCreatedAt_Order. -/
def olderEvent : SignalEvent :=
  { sampleEvent ActionCreated "older" with CreatedAt := "2026-02-22T10:00:00-03:00" }

def newerEvent : SignalEvent :=
  { sampleEvent ActionCreated "newer" with CreatedAt := "2026-02-23T10:00:00-03:00" }

/-- The events `high` and `low` of TestListByPriority_Filter. -/
def highEvent : SignalEvent :=
  { sampleEvent ActionCreated "high-1" with Priority := "High" }

def lowEvent : SignalEvent :=
  { sampleEvent ActionCreated "low-1" with
      Priority := "Low", CreatedAt := "2026-02-22T10:00:00-03:00" }

/-- Fifty created events, all newer than `sampleEvent`, with ids `n`, `nn`, ... -/
def crowdEvent (i : Nat) : SignalEvent :=
  { sampleEvent ActionCreated (String.mk (List.replicate (i + 1) 'n')) with
      CreatedAt := "2026-03-01T00:00:00Z" }

def crowd : List (Option StoreError × SignalEvent) :=
  (List.range 50).map (fun i => (none, crowdEvent i))

/-- A field of a hash is bound to a value: the field is there, and every entry
for it carries that value. -/
def Bound (h : GoMap) (field value : String) : Prop :=
  h.any (fun p => p.1 == field) = true ∧ ∀ p ∈ h, p.1 = field → p.2 = value

/-- The store after one more successful Apply on `v`, read with the reference
timestamp reader. -/
def applied (v : View) (event : SignalEvent) : View :=
  match Apply rfc3339 none v event with
  | .ok w => w
  | .error _ => v

/-- The store of TestApply_Updated and TestApply_Deleted before the second
event: `signal-1` has been created. -/
def seeded : View :=
  viewAfter [(none, sampleEvent ActionCreated "signal-1")]

/-- The store of the lifecycle scenario: `signal-1` created, then deleted. -/
def deletedView : View :=
  applied seeded (deleteEvent "signal-1")

/-- The members of the payload of TestParseSignalEvent_UnknownFieldsIgnored
without its unknown field. -/
def createdMembers : List (String × JSON) :=
  [("action", .string "created"), ("id", .string "abc-123")]

/-- The messages of the poison scenario: malformed JSON at offset 7, a valid
`created` event at offset 8. -/
def poisonMessage : Message :=
  { Offset := 7, Value := "\x7bnot valid json\x7d" }

def createdMessage : Message :=
  { Offset := 8,
    Value := "\x7b\"action\": \"created\", \"id\": \"s1\", \"priority\": \"High\", \"created_at\": \"2026-02-23T15:00:00-03:00\"\x7d" }

/-- The event the payload of `createdMessage` parses to. -/
def createdMessageEvent : SignalEvent :=
  { SignalEvent.zero with
      Action := "created", ID := "s1", Priority := "High",
      CreatedAt := "2026-02-23T15:00:00-03:00" }

/-- A store that Apply never produces: the record of id `a` is stored under
`signal:b`, and both indexes hold the member `b`. -/
def illKeyedView : View :=
  ZAdd keyByPriority 3 "b"
    (ZAdd keyByCreatedAt 1771869600 "b"
      (HSet (signalKey "b") (sampleEvent ActionCreated "a").Fields View.empty))

/-! ## Sorted sets -/

theorem ZSet.mem_rem (z : ZSet) (member : String) (x : ZEntry) :
    x ∈ (z.rem member).entries ↔ x ∈ z.entries ∧ x.member ≠ member := by
  simp [ZSet.rem, List.mem_filter]

theorem ZSet.mem_add (z : ZSet) (score : Int) (member : String) (x : ZEntry) :
    x ∈ (z.add score member).entries ↔
      x = ⟨score, member⟩ ∨ (x ∈ z.entries ∧ x.member ≠ member) := by
  simp only [ZSet.add, List.mem_orderedInsert, ZSet.mem_rem]

theorem ZSet.mem_members (z : ZSet) (member : String) :
    member ∈ z.members ↔ ∃ x ∈ z.entries, x.member = member := by
  simp [ZSet.members]

theorem ZSet.entry_unique (z : ZSet) {x y : ZEntry} (hx : x ∈ z.entries) (hy : y ∈ z.entries)
    (h : x.member = y.member) : x = y :=
  List.inj_on_of_nodup_map z.nodup hx hy h

theorem ZSet.rem_of_not_mem (z : ZSet) (member : String) (h : member ∉ z.members) :
    z.rem member = z := by
  apply ZSet.ext
  simp only [ZSet.rem]
  rw [List.filter_eq_self]
  intro x hx
  have : x.member ≠ member := fun hm => h ((z.mem_members member).mpr ⟨x, hx, hm⟩)
  simpa using this

theorem ZSet.not_mem_members_rem (z : ZSet) (member : String) :
    member ∉ (z.rem member).members := by
  intro h
  obtain ⟨x, hx, hm⟩ := (ZSet.mem_members _ _).mp h
  exact ((z.mem_rem member x).mp hx).2 hm

theorem ZSet.rem_rem (z : ZSet) (member : String) :
    (z.rem member).rem member = z.rem member :=
  ZSet.rem_of_not_mem _ _ (z.not_mem_members_rem member)

theorem filter_orderedInsert_of_false (p : ZEntry → Bool) (a : ZEntry) (h : p a = false)
    (l : List ZEntry) : (l.orderedInsert ZEntry.le a).filter p = l.filter p := by
  induction l with
  | nil => simp [h]
  | cons b l ih =>
    by_cases hab : ZEntry.le a b
    · simp [List.orderedInsert, hab, List.filter_cons, h]
    · simp [List.orderedInsert, hab, List.filter_cons, ih]

theorem ZSet.rem_add (z : ZSet) (score : Int) (member : String) :
    (z.add score member).rem member = z.rem member := by
  apply ZSet.ext
  simp only [ZSet.rem, ZSet.add]
  rw [filter_orderedInsert_of_false _ _ (by simp), List.filter_filter]
  simp

theorem ZSet.add_add (z : ZSet) (score : Int) (member : String) :
    (z.add score member).add score member = z.add score member := by
  apply ZSet.ext
  show ((z.add score member).rem member).entries.orderedInsert ZEntry.le ⟨score, member⟩ = _
  rw [ZSet.rem_add]
  rfl

theorem ZSet.score?_eq_some (z : ZSet) (member : String) (score : Int) :
    z.score? member = some score ↔ (⟨score, member⟩ : ZEntry) ∈ z.entries := by
  unfold ZSet.score?
  constructor
  · intro h
    split at h
    · rename_i e he
      have hmem := List.mem_of_find?_eq_some he
      have hm := List.find?_some he
      simp only [decide_eq_true_eq] at hm
      cases h
      cases e
      simp_all
    · cases h
  · intro h
    cases hfind : z.entries.find? (fun e => decide (e.member = member)) with
    | none =>
      have := List.find?_eq_none.mp hfind _ h
      simp at this
    | some e =>
      have hmem := List.mem_of_find?_eq_some hfind
      have hm := List.find?_some hfind
      simp only [decide_eq_true_eq] at hm
      have := z.entry_unique hmem h hm
      simp [this]

theorem ZSet.score?_eq_none (z : ZSet) (member : String) :
    z.score? member = none ↔ member ∉ z.members := by
  rw [ZSet.mem_members]
  unfold ZSet.score?
  constructor
  · intro h
    split at h
    · cases h
    · rename_i hnone
      rintro ⟨x, hx, hm⟩
      have := List.find?_eq_none.mp hnone x hx
      simp [hm] at this
  · intro h
    cases hfind : z.entries.find? (fun e => decide (e.member = member)) with
    | none => rfl
    | some e =>
      have hmem := List.mem_of_find?_eq_some hfind
      have hm := List.find?_some hfind
      simp only [decide_eq_true_eq] at hm
      exact absurd ⟨e, hmem, hm⟩ h

theorem ZSet.count_members (z : ZSet) (member : String) (h : member ∈ z.members) :
    z.members.count member = 1 :=
  List.count_eq_one_of_mem z.nodup h

/-! ## Keys and hashes -/

theorem signalKey_injective {a b : String} (h : signalKey a = signalKey b) : a = b := by
  have hd := congrArg String.data h
  simp only [signalKey, String.data_append] at hd
  exact String.ext (List.append_cancel_left hd)

theorem keyByCreatedAt_ne_keyByPriority : keyByCreatedAt ≠ keyByPriority := by decide

theorem signalKey_ne_keyByCreatedAt (id : String) : signalKey id ≠ keyByCreatedAt := by
  intro h
  have hd := congrArg (fun s : String => s.data.get? 6) h
  simp [signalKey, keyByCreatedAt, String.data_append] at hd

theorem signalKey_ne_keyByPriority (id : String) : signalKey id ≠ keyByPriority := by
  intro h
  have hd := congrArg (fun s : String => s.data.get? 6) h
  simp [signalKey, keyByPriority, String.data_append] at hd

theorem fields_ne_nil (e : SignalEvent) : e.Fields ≠ [] := by
  simp [SignalEvent.Fields]

theorem hsetAll_nil_fields (e : SignalEvent) : hsetAll [] e.Fields = e.Fields := by
  simp [hsetAll, hsetField, SignalEvent.Fields]

theorem hsetAll_fields_fields (e₀ e : SignalEvent) : hsetAll e₀.Fields e.Fields = e.Fields := by
  simp [hsetAll, hsetField, SignalEvent.Fields]

theorem signalFromMap_fields (e : SignalEvent) :
    SignalFromMap e.Fields =
      { ID := e.ID, Title := e.Title, Content := e.Content, Priority := e.Priority,
        Author := e.Author, CreatedAt := e.CreatedAt, UpdatedAt := e.UpdatedAt } := by
  simp [SignalFromMap, GoMap.index, SignalEvent.Fields, List.lookup]

theorem lookup_cons_eq (key a b : String) (h : GoMap) :
    List.lookup key ((a, b) :: h) = if key = a then some b else List.lookup key h := by
  by_cases hk : key = a
  · subst hk; simp [List.lookup]
  · have hk' : (key == a) = false := by simpa using hk
    simp [List.lookup, hk, hk']

theorem lookup_map_replace (field value key : String) (h : GoMap) :
    (h.map (fun p => if p.1 = field then (field, value) else p)).lookup key =
      if key = field then (if h.any (fun p => p.1 == field) then some value else none)
      else h.lookup key := by
  induction h with
  | nil => simp
  | cons p h ih =>
    obtain ⟨a, b⟩ := p
    rw [List.map_cons, List.any_cons]
    by_cases haf : a = field
    · subst haf
      rw [if_pos rfl, lookup_cons_eq, lookup_cons_eq, ih]
      by_cases hk : key = a
      · simp [hk]
      · simp [hk]
    · rw [if_neg haf, lookup_cons_eq, lookup_cons_eq, ih]
      by_cases hk : key = field
      · subst hk
        have hka : ¬ key = a := fun h => haf h.symm
        have ha' : (a == key) = false := by simpa using haf
        dsimp only
        rw [ha', Bool.false_or]
        simp [hka]
      · simp [hk]

theorem lookup_append_new (field value key : String) (h : GoMap)
    (hnew : h.any (fun p => p.1 == field) = false) :
    (h ++ [(field, value)]).lookup key =
      if key = field then some value else h.lookup key := by
  induction h with
  | nil =>
    rw [List.nil_append, lookup_cons_eq]
  | cons p h ih =>
    obtain ⟨a, b⟩ := p
    rw [List.any_cons, Bool.or_eq_false_iff] at hnew
    have haf : a ≠ field := by simpa using hnew.1
    rw [List.cons_append, lookup_cons_eq, lookup_cons_eq, ih hnew.2]
    by_cases hka : key = a
    · have : key ≠ field := fun h => haf (hka ▸ h)
      simp [hka, haf]
    · simp [hka]

theorem lookup_hsetField (h : GoMap) (field value key : String) :
    (hsetField h field value).lookup key =
      if key = field then some value else h.lookup key := by
  unfold hsetField
  by_cases hany : h.any (fun p => p.1 == field) = true
  · rw [if_pos hany, lookup_map_replace]
    simp [hany]
  · rw [if_neg hany]
    exact lookup_append_new field value key h (Bool.eq_false_iff.mpr hany)

theorem hsetField_ne_nil (h : GoMap) (field value : String) : hsetField h field value ≠ [] := by
  unfold hsetField
  split
  · rename_i hany
    cases h with
    | nil => simp at hany
    | cons p h => simp
  · simp

theorem hsetAll_fields_ne_nil (h : GoMap) (e : SignalEvent) : hsetAll h e.Fields ≠ [] := by
  simp only [hsetAll, SignalEvent.Fields, List.foldl]
  exact hsetField_ne_nil _ _ _

theorem signalFromMap_hsetAll_fields (h : GoMap) (e : SignalEvent) :
    SignalFromMap (hsetAll h e.Fields) = SignalFromMap e.Fields := by
  rw [signalFromMap_fields]
  simp [SignalFromMap, GoMap.index, hsetAll, SignalEvent.Fields, List.foldl, lookup_hsetField]

/-! ## What a successful Apply leaves in the store -/

theorem TxExec_ok_iff (link : Option StoreError) (cmds : List (View → View)) (v w : View) :
    TxExec link cmds v = .ok w ↔ link = none ∧ w = cmds.foldl (fun acc cmd => cmd acc) v := by
  cases link with
  | none => simp [TxExec, eq_comm]
  | some err => simp [TxExec]

theorem upsert_ok_iff (tp : String → Option Int) (link : Option StoreError) (v w : View)
    (e : SignalEvent) :
    upsert tp link v e = .ok w ↔
      link = none ∧
      w = ZAdd keyByPriority (priorityScores e.Priority) e.ID
            (ZAdd keyByCreatedAt (parseTimestamp tp e.CreatedAt) e.ID
              (HSet (signalKey e.ID) e.Fields v)) := by
  simp [upsert, TxExec_ok_iff]

theorem evict_ok_iff (link : Option StoreError) (v w : View) (id : String) :
    evict link v id = .ok w ↔
      link = none ∧
      w = ZRem keyByPriority id (ZRem keyByCreatedAt id (Del (signalKey id) v)) := by
  simp [evict, TxExec_ok_iff]

theorem upsert_hashes {tp : String → Option Int} {link : Option StoreError} {v w : View}
    {e : SignalEvent} (h : upsert tp link v e = .ok w) :
    w.hashes = Function.update v.hashes (signalKey e.ID)
      (hsetAll (v.hashes (signalKey e.ID)) e.Fields) := by
  obtain ⟨_, rfl⟩ := (upsert_ok_iff tp link v w e).mp h
  rfl

theorem upsert_byCreatedAt {tp : String → Option Int} {link : Option StoreError} {v w : View}
    {e : SignalEvent} (h : upsert tp link v e = .ok w) :
    w.zsets keyByCreatedAt =
      (v.zsets keyByCreatedAt).add (parseTimestamp tp e.CreatedAt) e.ID := by
  obtain ⟨_, rfl⟩ := (upsert_ok_iff tp link v w e).mp h
  simp [ZAdd, HSet, Function.update, keyByCreatedAt_ne_keyByPriority]

theorem upsert_byPriority {tp : String → Option Int} {link : Option StoreError} {v w : View}
    {e : SignalEvent} (h : upsert tp link v e = .ok w) :
    w.zsets keyByPriority = (v.zsets keyByPriority).add (priorityScores e.Priority) e.ID := by
  obtain ⟨_, rfl⟩ := (upsert_ok_iff tp link v w e).mp h
  simp [ZAdd, HSet, Function.update, keyByCreatedAt_ne_keyByPriority.symm]

theorem evict_hashes {link : Option StoreError} {v w : View} {id : String}
    (h : evict link v id = .ok w) :
    w.hashes = Function.update v.hashes (signalKey id) [] := by
  obtain ⟨_, rfl⟩ := (evict_ok_iff link v w id).mp h
  rfl

theorem evict_byCreatedAt {link : Option StoreError} {v w : View} {id : String}
    (h : evict link v id = .ok w) :
    w.zsets keyByCreatedAt = (v.zsets keyByCreatedAt).rem id := by
  obtain ⟨_, rfl⟩ := (evict_ok_iff link v w id).mp h
  simp [ZRem, Del, Function.update, keyByCreatedAt_ne_keyByPriority]

theorem evict_byPriority {link : Option StoreError} {v w : View} {id : String}
    (h : evict link v id = .ok w) :
    w.zsets keyByPriority = (v.zsets keyByPriority).rem id := by
  obtain ⟨_, rfl⟩ := (evict_ok_iff link v w id).mp h
  simp [ZRem, Del, Function.update, keyByCreatedAt_ne_keyByPriority.symm]

theorem Apply_deleted (tp : String → Option Int) (link : Option StoreError) (v : View)
    (e : SignalEvent) (h : e.Action = ActionDeleted) :
    Apply tp link v e = evict link v e.ID := by
  simp [Apply, h]

theorem Apply_not_deleted (tp : String → Option Int) (link : Option StoreError) (v : View)
    (e : SignalEvent) (h : e.Action ≠ ActionDeleted) :
    Apply tp link v e = upsert tp link v e := by
  simp [Apply, h]

theorem Apply_ok_link {tp : String → Option Int} {link : Option StoreError} {v w : View}
    {e : SignalEvent} (h : Apply tp link v e = .ok w) : link = none := by
  by_cases hd : e.Action = ActionDeleted
  · rw [Apply_deleted tp link v e hd] at h
    exact ((evict_ok_iff link v w e.ID).mp h).1
  · rw [Apply_not_deleted tp link v e hd] at h
    exact ((upsert_ok_iff tp link v w e).mp h).1

theorem ZSet.mem_members_add (z : ZSet) (score : Int) (member id : String) :
    id ∈ (z.add score member).members ↔ id = member ∨ id ∈ z.members := by
  simp only [ZSet.mem_members, ZSet.mem_add]
  constructor
  · rintro ⟨x, hx | ⟨hx, _⟩, hm⟩
    · left; rw [← hm, hx]
    · right; exact ⟨x, hx, hm⟩
  · rintro (h | ⟨x, hx, hm⟩)
    · exact ⟨⟨score, member⟩, Or.inl rfl, h.symm⟩
    · by_cases hid : id = member
      · exact ⟨⟨score, member⟩, Or.inl rfl, hid.symm⟩
      · exact ⟨x, Or.inr ⟨hx, fun h => hid (hm ▸ h)⟩, hm⟩

theorem ZSet.mem_members_rem (z : ZSet) (member id : String) :
    id ∈ (z.rem member).members ↔ id ≠ member ∧ id ∈ z.members := by
  simp only [ZSet.mem_members, ZSet.mem_rem]
  constructor
  · rintro ⟨x, ⟨hx, hne⟩, hm⟩
    exact ⟨fun h => hne (hm.trans h), x, hx, hm⟩
  · rintro ⟨hne, x, hx, hm⟩
    exact ⟨x, ⟨hx, fun h => hne (hm ▸ h)⟩, hm⟩

/-! ## The consistency invariant -/

theorem consistent_empty (tp : String → Option Int) : Consistent tp View.empty := by
  intro id
  left
  simp [View.empty, ZSet.members, ZSet.empty]

theorem consistent_upsert {tp : String → Option Int} {link : Option StoreError} {v w : View}
    {e : SignalEvent} (hv : Consistent tp v) (h : upsert tp link v e = .ok w) :
    Consistent tp w := by
  intro id
  rw [upsert_hashes h, upsert_byCreatedAt h, upsert_byPriority h]
  by_cases hid : id = e.ID
  · subst hid
    right
    refine ⟨e, rfl, ?_, (ZSet.mem_add _ _ _ _).mpr (Or.inl rfl),
      (ZSet.mem_add _ _ _ _).mpr (Or.inl rfl)⟩
    rw [Function.update_same]
    rcases hv e.ID with ⟨h0, _, _⟩ | ⟨e₀, _, h0, _, _⟩
    · rw [h0, hsetAll_nil_fields]
    · rw [h0, hsetAll_fields_fields]
  · have hkey : signalKey id ≠ signalKey e.ID := fun hk => hid (signalKey_injective hk)
    rw [Function.update_noteq hkey]
    rcases hv id with ⟨h0, h1, h2⟩ | ⟨e₀, he₀, h0, h1, h2⟩
    · left
      refine ⟨h0, ?_, ?_⟩
      · rw [ZSet.mem_members_add]; exact fun hh => hh.elim hid h1
      · rw [ZSet.mem_members_add]; exact fun hh => hh.elim hid h2
    · right
      exact ⟨e₀, he₀, h0, (ZSet.mem_add _ _ _ _).mpr (Or.inr ⟨h1, hid⟩),
        (ZSet.mem_add _ _ _ _).mpr (Or.inr ⟨h2, hid⟩)⟩

theorem consistent_evict {tp : String → Option Int} {link : Option StoreError} {v w : View}
    {id₀ : String} (hv : Consistent tp v) (h : evict link v id₀ = .ok w) :
    Consistent tp w := by
  intro id
  rw [evict_hashes h, evict_byCreatedAt h, evict_byPriority h]
  by_cases hid : id = id₀
  · subst hid
    left
    exact ⟨Function.update_same _ _ _, ZSet.not_mem_members_rem _ _, ZSet.not_mem_members_rem _ _⟩
  · have hkey : signalKey id ≠ signalKey id₀ := fun hk => hid (signalKey_injective hk)
    rw [Function.update_noteq hkey]
    rcases hv id with ⟨h0, h1, h2⟩ | ⟨e₀, he₀, h0, h1, h2⟩
    · left
      refine ⟨h0, ?_, ?_⟩
      · rw [ZSet.mem_members_rem]; exact fun hh => h1 hh.2
      · rw [ZSet.mem_members_rem]; exact fun hh => h2 hh.2
    · right
      exact ⟨e₀, he₀, h0, (ZSet.mem_rem _ _ _).mpr ⟨h1, hid⟩,
        (ZSet.mem_rem _ _ _).mpr ⟨h2, hid⟩⟩

theorem consistent_apply {tp : String → Option Int} {link : Option StoreError} {v w : View}
    {e : SignalEvent} (hv : Consistent tp v) (h : Apply tp link v e = .ok w) :
    Consistent tp w := by
  by_cases hd : e.Action = ActionDeleted
  · rw [Apply_deleted tp link v e hd] at h
    exact consistent_evict hv h
  · rw [Apply_not_deleted tp link v e hd] at h
    exact consistent_upsert hv h

theorem reachable_consistent {tp : String → Option Int} {v : View} (hv : Reachable tp v) :
    Consistent tp v := by
  induction hv with
  | empty => exact consistent_empty tp
  | apply link event _ happly ih => exact consistent_apply ih happly

theorem reachable_replay {tp : String → Option Int} {v w : View} (hv : Reachable tp v)
    (calls : List (Option StoreError × SignalEvent)) (h : replay tp v calls = .ok w) :
    Reachable tp w := by
  induction calls generalizing v with
  | nil =>
    simp only [replay] at h
    cases h
    exact hv
  | cons call calls ih =>
    obtain ⟨link, event⟩ := call
    simp only [replay] at h
    cases happly : Apply tp link v event with
    | error err => rw [happly] at h; cases h
    | ok u =>
      rw [happly] at h
      exact ih (Reachable.apply link event hv happly) h

theorem index_fields_created_at (e : SignalEvent) :
    GoMap.index e.Fields "created_at" = e.CreatedAt := by
  simp [GoMap.index, SignalEvent.Fields, List.lookup]

theorem index_fields_priority (e : SignalEvent) :
    GoMap.index e.Fields "priority" = e.Priority := by
  simp [GoMap.index, SignalEvent.Fields, List.lookup]

theorem consistent_record {tp : String → Option Int} {v : View} (hv : Consistent tp v)
    (id : String) (hne : v.hashes (signalKey id) ≠ []) :
    ∃ e : SignalEvent, e.ID = id ∧ v.hashes (signalKey id) = e.Fields ∧
      (⟨parseTimestamp tp e.CreatedAt, id⟩ : ZEntry) ∈ (v.zsets keyByCreatedAt).entries ∧
      (⟨priorityScores e.Priority, id⟩ : ZEntry) ∈ (v.zsets keyByPriority).entries := by
  rcases hv id with ⟨h0, _, _⟩ | h
  · exact absurd h0 hne
  · exact h

theorem consistent_of_mem_byCreatedAt {tp : String → Option Int} {v : View}
    (hv : Consistent tp v) {x : ZEntry} (hx : x ∈ (v.zsets keyByCreatedAt).entries) :
    ∃ e : SignalEvent, e.ID = x.member ∧ v.hashes (signalKey x.member) = e.Fields ∧
      x.score = parseTimestamp tp e.CreatedAt := by
  rcases hv x.member with ⟨_, h1, _⟩ | ⟨e, he, h0, h1, _⟩
  · exact absurd ((ZSet.mem_members _ _).mpr ⟨x, hx, rfl⟩) h1
  · refine ⟨e, he, h0, ?_⟩
    have := (v.zsets keyByCreatedAt).entry_unique hx h1 rfl
    rw [this]

theorem consistent_of_mem_byPriority {tp : String → Option Int} {v : View}
    (hv : Consistent tp v) {x : ZEntry} (hx : x ∈ (v.zsets keyByPriority).entries) :
    ∃ e : SignalEvent, e.ID = x.member ∧ v.hashes (signalKey x.member) = e.Fields ∧
      x.score = priorityScores e.Priority := by
  rcases hv x.member with ⟨_, _, h2⟩ | ⟨e, he, h0, _, h2⟩
  · exact absurd ((ZSet.mem_members _ _).mpr ⟨x, hx, rfl⟩) h2
  · refine ⟨e, he, h0, ?_⟩
    have := (v.zsets keyByPriority).entry_unique hx h2 rfl
    rw [this]

theorem consistent_signal_id {tp : String → Option Int} {v : View} (hv : Consistent tp v)
    (id : String) (hne : v.hashes (signalKey id) ≠ []) :
    (SignalFromMap (v.hashes (signalKey id))).ID = id := by
  obtain ⟨e, he, h0, _, _⟩ := consistent_record hv id hne
  rw [h0, signalFromMap_fields, he]

/-! ## Reads -/

theorem mem_hydrateSignals (commands : List GoMap) (s : Signal) :
    s ∈ hydrateSignals commands ↔ ∃ data ∈ commands, data ≠ [] ∧ s = SignalFromMap data := by
  induction commands with
  | nil => simp [hydrateSignals]
  | cons data commands ih =>
    unfold hydrateSignals
    by_cases hlen : data.length = 0
    · have hnil : data = [] := List.length_eq_zero.mp hlen
      rw [if_pos hlen, ih]
      simp [hnil]
    · have hne : data ≠ [] := fun h => hlen (by rw [h]; rfl)
      rw [if_neg hlen, List.mem_cons, ih]
      constructor
      · rintro (h | ⟨d, hd, hd', hs⟩)
        · exact ⟨data, List.mem_cons_self _ _, hne, h⟩
        · exact ⟨d, List.mem_cons_of_mem _ hd, hd', hs⟩
      · rintro ⟨d, hd, hd', hs⟩
        rcases List.mem_cons.mp hd with h | h
        · left; rw [hs, h]
        · right; exact ⟨d, h, hd', hs⟩

theorem hydrateSignals_all (commands : List GoMap) (h : ∀ data ∈ commands, data ≠ []) :
    hydrateSignals commands = commands.map SignalFromMap := by
  induction commands with
  | nil => rfl
  | cons data commands ih =>
    have hne : data ≠ [] := h data (List.mem_cons_self _ _)
    have hlen : ¬ data.length = 0 := fun hl => hne (List.length_eq_zero.mp hl)
    unfold hydrateSignals
    rw [if_neg hlen, ih (fun d hd => h d (List.mem_cons_of_mem _ hd)), List.map_cons]

theorem fetchMany_none (v : View) (ids : List String) :
    fetchMany none v ids = .ok (hydrateSignals (ids.map (fun id => v.hashes (signalKey id)))) := by
  unfold fetchMany
  by_cases hlen : ids.length = 0
  · have hnil : ids = [] := List.length_eq_zero.mp hlen
    simp [hnil, hydrateSignals]
  · rw [if_neg hlen]
    simp [PipelineHGetAll, List.map_map, Function.comp_def]

theorem fetchMany_ok {link : Option StoreError} {v : View} {ids : List String}
    {signals : List Signal} (h : fetchMany link v ids = .ok signals) :
    signals = hydrateSignals (ids.map (fun id => v.hashes (signalKey id))) := by
  cases link with
  | none =>
    rw [fetchMany_none] at h
    cases h
    rfl
  | some err =>
    unfold fetchMany at h
    by_cases hlen : ids.length = 0
    · have hnil : ids = [] := List.length_eq_zero.mp hlen
      rw [if_pos hlen] at h
      cases h
      simp [hnil, hydrateSignals]
    · rw [if_neg hlen] at h
      simp [PipelineHGetAll] at h

theorem ZSet.revRange_eq_take_drop (z : ZSet) (start stop : Int) :
    ∃ m n : Nat, z.revRange start stop = ((z.entries.reverse.map ZEntry.member).drop m).take n := by
  unfold ZSet.revRange
  dsimp only
  split_ifs <;> first | exact ⟨_, _, rfl⟩ | exact ⟨0, 0, rfl⟩

theorem ZSet.revRange_sublist (z : ZSet) (start stop : Int) :
    (z.revRange start stop).Sublist (z.entries.reverse.map ZEntry.member) := by
  obtain ⟨m, n, h⟩ := z.revRange_eq_take_drop start stop
  rw [h]
  exact (List.take_sublist _ _).trans (List.drop_sublist _ _)

theorem ZSet.mem_of_mem_revRange (z : ZSet) (start stop : Int) (id : String)
    (h : id ∈ z.revRange start stop) : id ∈ z.members := by
  have := (z.revRange_sublist start stop).subset h
  simpa [ZSet.members] using this

theorem ZSet.mem_rangeByScore (z : ZSet) (min max : Int) (id : String) :
    id ∈ z.rangeByScore min max ↔
      ∃ x ∈ z.entries, x.member = id ∧ min ≤ x.score ∧ x.score ≤ max := by
  simp [ZSet.rangeByScore, List.mem_filter, and_assoc, and_comm, and_left_comm]

theorem ZSet.mem_of_mem_rangeByScore (z : ZSet) (min max : Int) (id : String)
    (h : id ∈ z.rangeByScore min max) : id ∈ z.members := by
  obtain ⟨x, hx, hm, _⟩ := (z.mem_rangeByScore min max id).mp h
  exact (z.mem_members id).mpr ⟨x, hx, hm⟩

theorem ListByCreatedAt_ok {scan fetch : Option StoreError} {v : View} {start stop : Int}
    {signals : List Signal} (h : ListByCreatedAt scan fetch v start stop = .ok signals) :
    signals = hydrateSignals
      (((v.zsets keyByCreatedAt).revRange start stop).map (fun id => v.hashes (signalKey id))) := by
  cases scan with
  | none => exact fetchMany_ok (by simpa [ListByCreatedAt, ZRevRange] using h)
  | some err => simp [ListByCreatedAt, ZRevRange] at h

theorem ListByPriority_ok {scan fetch : Option StoreError} {v : View} {priority : String}
    {signals : List Signal} (h : ListByPriority scan fetch v priority = .ok signals) :
    signals = hydrateSignals
      (((v.zsets keyByPriority).rangeByScore (priorityScores priority)
        (priorityScores priority)).map (fun id => v.hashes (signalKey id))) := by
  cases scan with
  | none => exact fetchMany_ok (by simpa [ListByPriority, ZRangeByScore] using h)
  | some err => simp [ListByPriority, ZRangeByScore] at h

theorem ListByCreatedAt_none (v : View) (start stop : Int) :
    ListByCreatedAt none none v start stop = .ok (hydrateSignals
      (((v.zsets keyByCreatedAt).revRange start stop).map (fun id => v.hashes (signalKey id)))) := by
  simp [ListByCreatedAt, ZRevRange, fetchMany_none]

theorem ListByPriority_none (v : View) (priority : String) :
    ListByPriority none none v priority = .ok (hydrateSignals
      (((v.zsets keyByPriority).rangeByScore (priorityScores priority)
        (priorityScores priority)).map (fun id => v.hashes (signalKey id)))) := by
  simp [ListByPriority, ZRangeByScore, fetchMany_none]

theorem reachable_viewAfter (calls : List (Option StoreError × SignalEvent)) :
    Reachable rfc3339 (viewAfter calls) := by
  unfold viewAfter
  cases h : replay rfc3339 View.empty calls with
  | error err => exact Reachable.empty
  | ok v => exact reachable_replay Reachable.empty calls h

theorem created_ne_deleted : ActionCreated ≠ ActionDeleted := by decide

theorem updated_ne_deleted : ActionUpdated ≠ ActionDeleted := by decide

/-! ## The claims -/

/-- C1 (index consistency). After any run of Apply calls from the empty view
in which every call succeeded, an id has a primary record `signal:<id>` exactly
when it is in the chronological index and exactly when it is in the priority
index; when it has one it occurs once in each index, its chronological score is
parseTimestamp of the stored created_at and its priority score is the ordinal
of the stored priority. -/
theorem index_consistency (tp : String → Option Int)
    (calls : List (Option StoreError × SignalEvent)) (v : View)
    (h : replay tp View.empty calls = .ok v) (id : String) :
    (v.hashes (signalKey id) ≠ [] ↔ id ∈ (v.zsets keyByCreatedAt).members) ∧
    (v.hashes (signalKey id) ≠ [] ↔ id ∈ (v.zsets keyByPriority).members) ∧
    (v.hashes (signalKey id) ≠ [] →
      (v.zsets keyByCreatedAt).members.count id = 1 ∧
      (v.zsets keyByPriority).members.count id = 1 ∧
      (v.zsets keyByCreatedAt).score? id =
        some (parseTimestamp tp (GoMap.index (v.hashes (signalKey id)) "created_at")) ∧
      (v.zsets keyByPriority).score? id =
        some (priorityScores (GoMap.index (v.hashes (signalKey id)) "priority"))) := by
  have hv : Consistent tp v := reachable_consistent (reachable_replay Reachable.empty calls h)
  rcases hv id with ⟨h0, h1, h2⟩ | ⟨e, _, h0, h1, h2⟩
  · exact ⟨⟨fun hne => absurd h0 hne, fun hm => absurd hm h1⟩,
      ⟨fun hne => absurd h0 hne, fun hm => absurd hm h2⟩, fun hne => absurd h0 hne⟩
  · have hne : v.hashes (signalKey id) ≠ [] := by rw [h0]; exact fields_ne_nil e
    have hm1 : id ∈ (v.zsets keyByCreatedAt).members :=
      (ZSet.mem_members _ _).mpr ⟨_, h1, rfl⟩
    have hm2 : id ∈ (v.zsets keyByPriority).members :=
      (ZSet.mem_members _ _).mpr ⟨_, h2, rfl⟩
    refine ⟨⟨fun _ => hm1, fun _ => hne⟩, ⟨fun _ => hm2, fun _ => hne⟩, fun _ => ?_⟩
    refine ⟨ZSet.count_members _ _ hm1, ZSet.count_members _ _ hm2, ?_, ?_⟩
    · rw [h0, index_fields_created_at]
      exact (ZSet.score?_eq_some _ _ _).mpr h1
    · rw [h0, index_fields_priority]
      exact (ZSet.score?_eq_some _ _ _).mpr h2

/-- Witness of C1: the run of TestApply_Updated (create `signal-1`, then update
it to priority Low), read at `signal-1`. -/
theorem index_consistency_witness :
    replay rfc3339 View.empty updatedRun = .ok (viewAfter updatedRun) ∧
    ((viewAfter updatedRun).hashes (signalKey "signal-1") ≠ [] ↔
      "signal-1" ∈ ((viewAfter updatedRun).zsets keyByCreatedAt).members) ∧
    ((viewAfter updatedRun).hashes (signalKey "signal-1") ≠ [] ↔
      "signal-1" ∈ ((viewAfter updatedRun).zsets keyByPriority).members) ∧
    ((viewAfter updatedRun).hashes (signalKey "signal-1") ≠ [] →
      ((viewAfter updatedRun).zsets keyByCreatedAt).members.count "signal-1" = 1 ∧
      ((viewAfter updatedRun).zsets keyByPriority).members.count "signal-1" = 1 ∧
      ((viewAfter updatedRun).zsets keyByCreatedAt).score? "signal-1" =
        some (parseTimestamp rfc3339
          (GoMap.index ((viewAfter updatedRun).hashes (signalKey "signal-1")) "created_at")) ∧
      ((viewAfter updatedRun).zsets keyByPriority).score? "signal-1" =
        some (priorityScores
          (GoMap.index ((viewAfter updatedRun).hashes (signalKey "signal-1")) "priority"))) :=
  ⟨rfl, index_consistency rfc3339 updatedRun (viewAfter updatedRun) rfl "signal-1"⟩

/-- C3 (upsert postcondition, full field overwrite). In a view reachable from
the empty view, after a successful Apply of a created or updated event the
record stored under the event's id is exactly the event's field map, and
FindByID of that id succeeds with the Signal whose seven fields are the
event's, whatever was stored for the id before. -/
theorem upsert_full_overwrite (tp : String → Option Int) (v : View) (hv : Reachable tp v)
    (e : SignalEvent) (hact : e.Action = ActionCreated ∨ e.Action = ActionUpdated)
    (link : Option StoreError) (w : View) (h : Apply tp link v e = .ok w) :
    w.hashes (signalKey e.ID) = e.Fields ∧
    FindByID none w e.ID =
      .ok { ID := e.ID, Title := e.Title, Content := e.Content, Priority := e.Priority,
            Author := e.Author, CreatedAt := e.CreatedAt, UpdatedAt := e.UpdatedAt } := by
  have hnd : e.Action ≠ ActionDeleted := by
    rcases hact with ha | ha
    · rw [ha]; exact created_ne_deleted
    · rw [ha]; exact updated_ne_deleted
  rw [Apply_not_deleted tp link v e hnd] at h
  have hrec : w.hashes (signalKey e.ID) = e.Fields := by
    rw [upsert_hashes h, Function.update_same]
    rcases reachable_consistent hv e.ID with ⟨h0, _, _⟩ | ⟨e₀, _, h0, _, _⟩
    · rw [h0, hsetAll_nil_fields]
    · rw [h0, hsetAll_fields_fields]
  refine ⟨hrec, ?_⟩
  have hlen : ¬ e.Fields.length = 0 := by simp [SignalEvent.Fields]
  simp only [FindByID, HGetAll, hrec, if_neg hlen, signalFromMap_fields]

/-- Witness of C3: TestApply_Updated, the update applied to the view that
holds the original `signal-1`. -/
theorem upsert_full_overwrite_witness :
    Reachable rfc3339 seeded ∧
    (updatedEvent.Action = ActionCreated ∨ updatedEvent.Action = ActionUpdated) ∧
    Apply rfc3339 none seeded updatedEvent = .ok (applied seeded updatedEvent) ∧
    (applied seeded updatedEvent).hashes (signalKey updatedEvent.ID) = updatedEvent.Fields ∧
    FindByID none (applied seeded updatedEvent) updatedEvent.ID =
      .ok { ID := updatedEvent.ID, Title := updatedEvent.Title, Content := updatedEvent.Content,
            Priority := updatedEvent.Priority, Author := updatedEvent.Author,
            CreatedAt := updatedEvent.CreatedAt, UpdatedAt := updatedEvent.UpdatedAt } :=
  ⟨reachable_viewAfter _, Or.inr rfl, rfl,
    upsert_full_overwrite rfc3339 seeded (reachable_viewAfter _) updatedEvent (Or.inr rfl) none
      (applied seeded updatedEvent) rfl⟩

theorem reachable_wellKeyed {tp : String → Option Int} {v : View} (hv : Reachable tp v) :
    WellKeyed v :=
  fun id hne => consistent_signal_id (reachable_consistent hv) id hne

theorem wellKeyed_evict {link : Option StoreError} {v w : View} {id₀ : String}
    (hv : WellKeyed v) (h : evict link v id₀ = .ok w) : WellKeyed w := by
  intro id
  rw [evict_hashes h]
  by_cases hid : id = id₀
  · subst hid
    rw [Function.update_same]
    exact fun hne => absurd rfl hne
  · have hkey : signalKey id ≠ signalKey id₀ := fun hk => hid (signalKey_injective hk)
    rw [Function.update_noteq hkey]
    exact hv id

/-- C4 (evict postcondition), as amended. For every view, after a successful
Apply of a deleted event FindByID of its id fails with ErrNotFound, and the id
is in no range of the chronological index and in no score range of the priority
index. For every view whose records carry the id they are stored under, and so
for every view reachable by Apply from the empty view, no Signal with that id
is returned by ListByCreatedAt for any range or by ListByPriority for any
priority. -/
theorem evict_postcondition (tp : String → Option Int) (v : View) (e : SignalEvent)
    (hdel : e.Action = ActionDeleted) (link : Option StoreError) (w : View)
    (h : Apply tp link v e = .ok w) :
    FindByID none w e.ID = .error .ErrNotFound ∧
    (∀ start stop : Int, e.ID ∉ (w.zsets keyByCreatedAt).revRange start stop) ∧
    (∀ min max : Int, e.ID ∉ (w.zsets keyByPriority).rangeByScore min max) ∧
    (WellKeyed v →
      (∀ (scan fetch : Option StoreError) (start stop : Int) (signals : List Signal),
        ListByCreatedAt scan fetch w start stop = .ok signals → ∀ s ∈ signals, s.ID ≠ e.ID) ∧
      (∀ (scan fetch : Option StoreError) (p : String) (signals : List Signal),
        ListByPriority scan fetch w p = .ok signals → ∀ s ∈ signals, s.ID ≠ e.ID)) ∧
    (Reachable tp v →
      (∀ (scan fetch : Option StoreError) (start stop : Int) (signals : List Signal),
        ListByCreatedAt scan fetch w start stop = .ok signals → ∀ s ∈ signals, s.ID ≠ e.ID) ∧
      (∀ (scan fetch : Option StoreError) (p : String) (signals : List Signal),
        ListByPriority scan fetch w p = .ok signals → ∀ s ∈ signals, s.ID ≠ e.ID)) := by
  rw [Apply_deleted tp link v e hdel] at h
  have hc : e.ID ∉ (w.zsets keyByCreatedAt).members := by
    rw [evict_byCreatedAt h]; exact ZSet.not_mem_members_rem _ _
  have hp : e.ID ∉ (w.zsets keyByPriority).members := by
    rw [evict_byPriority h]; exact ZSet.not_mem_members_rem _ _
  have hlists : WellKeyed v →
      (∀ (scan fetch : Option StoreError) (start stop : Int) (signals : List Signal),
        ListByCreatedAt scan fetch w start stop = .ok signals → ∀ s ∈ signals, s.ID ≠ e.ID) ∧
      (∀ (scan fetch : Option StoreError) (p : String) (signals : List Signal),
        ListByPriority scan fetch w p = .ok signals → ∀ s ∈ signals, s.ID ≠ e.ID) := by
    intro hv
    have hw : WellKeyed w := wellKeyed_evict hv h
    constructor
    · intro scan fetch start stop signals hlist s hs hid
      rw [ListByCreatedAt_ok hlist, mem_hydrateSignals] at hs
      obtain ⟨data, hdata, hne, rfl⟩ := hs
      obtain ⟨id, hmem, rfl⟩ := List.mem_map.mp hdata
      have hkey : (SignalFromMap (w.hashes (signalKey id))).ID = id := hw id hne
      rw [hkey] at hid
      exact hc (hid ▸ ZSet.mem_of_mem_revRange _ _ _ _ hmem)
    · intro scan fetch p signals hlist s hs hid
      rw [ListByPriority_ok hlist, mem_hydrateSignals] at hs
      obtain ⟨data, hdata, hne, rfl⟩ := hs
      obtain ⟨id, hmem, rfl⟩ := List.mem_map.mp hdata
      have hkey : (SignalFromMap (w.hashes (signalKey id))).ID = id := hw id hne
      rw [hkey] at hid
      exact hp (hid ▸ ZSet.mem_of_mem_rangeByScore _ _ _ _ hmem)
  refine ⟨?_, ?_, ?_, hlists, fun hr => hlists (reachable_wellKeyed hr)⟩
  · simp [FindByID, HGetAll, evict_hashes h]
  · exact fun start stop hm => hc (ZSet.mem_of_mem_revRange _ _ _ _ hm)
  · exact fun min max hm => hp (ZSet.mem_of_mem_rangeByScore _ _ _ _ hm)

/-- Witness of C4: TestApply_Deleted, `signal-1` created and then deleted. -/
theorem evict_postcondition_witness :
    (deleteEvent "signal-1").Action = ActionDeleted ∧
    Apply rfc3339 none seeded (deleteEvent "signal-1") =
      .ok (applied seeded (deleteEvent "signal-1")) ∧
    WellKeyed seeded ∧
    Reachable rfc3339 seeded ∧
    FindByID none (applied seeded (deleteEvent "signal-1")) "signal-1" = .error .ErrNotFound ∧
    (∀ (scan fetch : Option StoreError) (start stop : Int) (signals : List Signal),
      ListByCreatedAt scan fetch (applied seeded (deleteEvent "signal-1")) start stop =
        .ok signals → ∀ s ∈ signals, s.ID ≠ "signal-1") ∧
    (∀ (scan fetch : Option StoreError) (p : String) (signals : List Signal),
      ListByPriority scan fetch (applied seeded (deleteEvent "signal-1")) p =
        .ok signals → ∀ s ∈ signals, s.ID ≠ "signal-1") :=
  have h := evict_postcondition rfc3339 seeded (deleteEvent "signal-1") rfl none
    (applied seeded (deleteEvent "signal-1")) rfl
  have hk : WellKeyed seeded := reachable_wellKeyed (reachable_viewAfter _)
  have hr : Reachable rfc3339 seeded := reachable_viewAfter _
  ⟨rfl, rfl, hk, hr, h.1, (h.2.2.2.2 hr).1, (h.2.2.2.1 hk).2⟩

/-- Counterexample to C4 as stated for every view: in a store that holds the
record of id `a` under `signal:b`, with `b` in both indexes, the deleted event
of `a` is applied with success and FindByID of `a` then fails with ErrNotFound,
yet ListByCreatedAt and ListByPriority still return a Signal whose id is `a`. -/
theorem evict_ill_keyed_counterexample :
    (deleteEvent "a").Action = ActionDeleted ∧
    (deleteEvent "a").ID = "a" ∧
    illKeyedView.hashes (signalKey "b") = (sampleEvent ActionCreated "a").Fields ∧
    ¬ WellKeyed illKeyedView ∧
    Apply rfc3339 none illKeyedView (deleteEvent "a") =
      .ok (applied illKeyedView (deleteEvent "a")) ∧
    FindByID none (applied illKeyedView (deleteEvent "a")) "a" = .error .ErrNotFound ∧
    ListByCreatedAt none none (applied illKeyedView (deleteEvent "a")) 0 49 =
      .ok [SignalFromMap (sampleEvent ActionCreated "a").Fields] ∧
    ListByPriority none none (applied illKeyedView (deleteEvent "a")) "High" =
      .ok [SignalFromMap (sampleEvent ActionCreated "a").Fields] ∧
    (SignalFromMap (sampleEvent ActionCreated "a").Fields).ID = "a" := by
  refine ⟨rfl, rfl, by decide, ?_, rfl, by decide, by decide, by decide, by decide⟩
  intro hk
  have hb := hk "b" (by decide)
  revert hb
  decide

/-- C5 (deleting an absent id). When an id has no primary record and is in
neither index, Apply of a deleted event for it returns no error and leaves the
whole view as it was. -/
theorem delete_absent_noop (tp : String → Option Int) (v : View) (e : SignalEvent)
    (hdel : e.Action = ActionDeleted)
    (h0 : v.hashes (signalKey e.ID) = [])
    (h1 : e.ID ∉ (v.zsets keyByCreatedAt).members)
    (h2 : e.ID ∉ (v.zsets keyByPriority).members) :
    Apply tp none v e = .ok v := by
  rw [Apply_deleted tp none v e hdel]
  obtain ⟨hashes, zsets⟩ := v
  simp only at h0 h1 h2
  simp only [evict, TxExec, List.foldl, Del, ZRem, Function.update_same,
    Function.update_noteq keyByCreatedAt_ne_keyByPriority.symm]
  rw [ZSet.rem_of_not_mem _ _ h1, ZSet.rem_of_not_mem _ _ h2, ← h0]
  simp only [Function.update_eq_self]

/-- Witness of C5: TestApply_DeleteNonExistent, a delete on the empty view. -/
theorem delete_absent_noop_witness :
    (deleteEvent "does-not-exist").Action = ActionDeleted ∧
    View.empty.hashes (signalKey (deleteEvent "does-not-exist").ID) = [] ∧
    (deleteEvent "does-not-exist").ID ∉ (View.empty.zsets keyByCreatedAt).members ∧
    (deleteEvent "does-not-exist").ID ∉ (View.empty.zsets keyByPriority).members ∧
    Apply rfc3339 none View.empty (deleteEvent "does-not-exist") = .ok View.empty :=
  ⟨rfl, rfl, by decide, by decide,
    delete_absent_noop rfc3339 View.empty (deleteEvent "does-not-exist") rfl rfl
      (by decide) (by decide)⟩

/-- C6, counterexample. An event with the action `archived` (none of created,
updated, deleted) applied to the empty view succeeds and does not leave the
view unchanged: it writes the primary record, which FindByID then returns, and
both index entries. The same event with the empty action is stored as well. -/
theorem unknown_action_counterexample :
    archivedEvent.Action ≠ ActionCreated ∧ archivedEvent.Action ≠ ActionUpdated ∧
    archivedEvent.Action ≠ ActionDeleted ∧
    Apply rfc3339 none View.empty archivedEvent = .ok (applied View.empty archivedEvent) ∧
    View.empty.hashes (signalKey "signal-1") = [] ∧
    (applied View.empty archivedEvent).hashes (signalKey "signal-1") = archivedEvent.Fields ∧
    FindByID none (applied View.empty archivedEvent) "signal-1" =
      .ok (SignalFromMap archivedEvent.Fields) ∧
    ((applied View.empty archivedEvent).zsets keyByCreatedAt).members = ["signal-1"] ∧
    ((applied View.empty archivedEvent).zsets keyByPriority).members = ["signal-1"] ∧
    FindByID none (applied View.empty (sampleEvent "" "signal-1")) "signal-1" =
      .ok (SignalFromMap (sampleEvent "" "signal-1").Fields) ∧
    Apply rfc3339 none View.empty archivedEvent ≠ .ok View.empty := by
  refine ⟨by decide, by decide, by decide, rfl, rfl, by decide, by decide, by decide,
    by decide, by decide, ?_⟩
  intro h
  have hv : applied View.empty archivedEvent = View.empty := by
    unfold applied
    rw [h]
  have hrec := congrArg (fun v : View => v.hashes (signalKey "signal-1")) hv
  revert hrec
  decide

/-- C6, as the code has it. An event whose action is none of created, updated,
deleted (the empty action included) is applied like a created or updated one:
Apply runs the upsert, succeeds whenever the store round trip does, and then
the primary record holds the event's fields and both indexes hold the id at the
event's scores. -/
theorem unknown_action_upserts (tp : String → Option Int) (v : View) (e : SignalEvent)
    (hunknown : e.Action ∉ [ActionCreated, ActionUpdated, ActionDeleted])
    (link : Option StoreError) :
    Apply tp link v e = upsert tp link v e ∧
    Apply tp link v e = Apply tp link v { e with Action := ActionCreated } ∧
    (∃ w, Apply tp none v e = .ok w) ∧
    (∀ w, Apply tp link v e = .ok w →
      FindByID none w e.ID =
        .ok { ID := e.ID, Title := e.Title, Content := e.Content, Priority := e.Priority,
              Author := e.Author, CreatedAt := e.CreatedAt, UpdatedAt := e.UpdatedAt } ∧
      (w.zsets keyByCreatedAt).score? e.ID = some (parseTimestamp tp e.CreatedAt) ∧
      (w.zsets keyByPriority).score? e.ID = some (priorityScores e.Priority)) := by
  have hd : e.Action ≠ ActionDeleted := fun h => hunknown (by simp [h])
  have hup : Apply tp link v e = upsert tp link v e := Apply_not_deleted tp link v e hd
  refine ⟨hup, ?_, ?_, ?_⟩
  · rw [hup, Apply_not_deleted tp link v _ created_ne_deleted]
    rfl
  · rw [Apply_not_deleted tp none v e hd]
    exact ⟨_, (upsert_ok_iff tp none v _ e).mpr ⟨rfl, rfl⟩⟩
  · intro w h
    rw [hup] at h
    refine ⟨?_, ?_, ?_⟩
    · have hlen : ¬ (hsetAll (v.hashes (signalKey e.ID)) e.Fields).length = 0 :=
        fun hl => hsetAll_fields_ne_nil _ e (List.length_eq_zero.mp hl)
      simp only [FindByID, HGetAll, upsert_hashes h, Function.update_same, if_neg hlen,
        signalFromMap_hsetAll_fields, signalFromMap_fields]
    · rw [upsert_byCreatedAt h]
      exact (ZSet.score?_eq_some _ _ _).mpr ((ZSet.mem_add _ _ _ _).mpr (Or.inl rfl))
    · rw [upsert_byPriority h]
      exact (ZSet.score?_eq_some _ _ _).mpr ((ZSet.mem_add _ _ _ _).mpr (Or.inl rfl))

/-- Witness of the amended C6: the `archived` event on the empty view. -/
theorem unknown_action_upserts_witness :
    archivedEvent.Action ∉ [ActionCreated, ActionUpdated, ActionDeleted] ∧
    Apply rfc3339 none View.empty archivedEvent = upsert rfc3339 none View.empty archivedEvent ∧
    (∃ w, Apply rfc3339 none View.empty archivedEvent = .ok w) :=
  have h := unknown_action_upserts rfc3339 View.empty archivedEvent (by decide) none
  ⟨by decide, h.1, h.2.2.1⟩

/-- C9 (round trip). For every event, SignalFromMap of its Fields is the Signal
with the event's ID, Title, Content, Priority, Author, CreatedAt and UpdatedAt;
the action plays no part, and empty fields come back empty. -/
theorem fields_round_trip (e : SignalEvent) :
    SignalFromMap e.Fields =
      { ID := e.ID, Title := e.Title, Content := e.Content, Priority := e.Priority,
        Author := e.Author, CreatedAt := e.CreatedAt, UpdatedAt := e.UpdatedAt } :=
  signalFromMap_fields e

/-- C10 (FindByID outcomes). FindByID fails with ErrNotFound exactly when the
store read succeeded and the field map under `signal:<id>` is empty; with a
non-empty field map it returns SignalFromMap of that map; when the store read
fails it returns that store error, which is not ErrNotFound. -/
theorem findByID_outcomes (link : Option StoreError) (v : View) (id : String) :
    (FindByID link v id = .error .ErrNotFound ↔
      link = none ∧ v.hashes (signalKey id) = []) ∧
    (link = none → v.hashes (signalKey id) ≠ [] →
      FindByID link v id = .ok (SignalFromMap (v.hashes (signalKey id)))) ∧
    (∀ err, link = some err →
      FindByID link v id = .error (.store err) ∧
      FindByID link v id ≠ .error .ErrNotFound) := by
  cases link with
  | some err => simp [FindByID, HGetAll]
  | none =>
    by_cases h0 : v.hashes (signalKey id) = []
    · simp [FindByID, HGetAll, h0]
    · have hlen : ¬ (v.hashes (signalKey id)).length = 0 :=
        fun hl => h0 (List.length_eq_zero.mp hl)
      simp [FindByID, HGetAll, h0, hlen]

/-- Witness of C10: TestFindByID_NotFound on the empty view, the record of
`signal-1` once created, and a read that the store fails. -/
theorem findByID_outcomes_witness :
    FindByID none View.empty "nonexistent" = .error .ErrNotFound ∧
    FindByID none seeded "signal-1" = .ok (SignalFromMap (seeded.hashes (signalKey "signal-1"))) ∧
    FindByID (some ⟨"i/o timeout"⟩) seeded "signal-1" = .error (.store ⟨"i/o timeout"⟩) :=
  ⟨(findByID_outcomes none View.empty "nonexistent").1.mpr ⟨rfl, rfl⟩,
    (findByID_outcomes none seeded "signal-1").2.1 rfl (by decide),
    ((findByID_outcomes (some ⟨"i/o timeout"⟩) seeded "signal-1").2.2 _ rfl).1⟩

theorem ZEntry.score_le_of_le {a b : ZEntry} (h : ZEntry.le a b) : a.score ≤ b.score := by
  rcases h with h | ⟨h, _⟩
  · exact le_of_lt h
  · exact le_of_eq h

theorem hydrate_byCreatedAt {tp : String → Option Int} {v : View} (hv : Consistent tp v)
    (l : List ZEntry) (hl : ∀ x ∈ l, x ∈ (v.zsets keyByCreatedAt).entries) :
    (hydrateSignals ((l.map ZEntry.member).map (fun id => v.hashes (signalKey id)))).map
        (fun s => parseTimestamp tp s.CreatedAt) = l.map ZEntry.score := by
  rw [hydrateSignals_all]
  · rw [List.map_map, List.map_map, List.map_map]
    apply List.map_congr_left
    intro x hx
    obtain ⟨e, _, h0, hs⟩ := consistent_of_mem_byCreatedAt hv (hl x hx)
    simp only [Function.comp_apply, h0, signalFromMap_fields, hs]
  · intro data hdata
    rw [List.map_map] at hdata
    obtain ⟨x, hx, rfl⟩ := List.mem_map.mp hdata
    obtain ⟨e, _, h0, _⟩ := consistent_of_mem_byCreatedAt hv (hl x hx)
    simp only [Function.comp_apply, h0]
    exact fields_ne_nil e

/-- C7 (chronological order). In a view reachable from the empty view, for
every index range (so for every `(0, k)` with `k ≥ 0`) ListByCreatedAt returns
a list when the store reads succeed, and the list any successful call returns
is in non-increasing order of parseTimestamp of created_at (0 when the
timestamp does not parse): newest first. -/
theorem chronological_order (tp : String → Option Int) (v : View) (hv : Reachable tp v)
    (start stop : Int) :
    (∃ signals, ListByCreatedAt none none v start stop = .ok signals) ∧
    ∀ (scan fetch : Option StoreError) (signals : List Signal),
      ListByCreatedAt scan fetch v start stop = .ok signals →
      (signals.map (fun s => parseTimestamp tp s.CreatedAt)).Sorted (fun a b => a ≥ b) := by
  refine ⟨⟨_, ListByCreatedAt_none v start stop⟩, ?_⟩
  intro scan fetch signals h
  have hc := reachable_consistent hv
  obtain ⟨m, n, hr⟩ := (v.zsets keyByCreatedAt).revRange_eq_take_drop start stop
  rw [ListByCreatedAt_ok h, hr, ← List.map_drop, ← List.map_take]
  have hsub : (((v.zsets keyByCreatedAt).entries.reverse.drop m).take n).Sublist
      (v.zsets keyByCreatedAt).entries.reverse :=
    (List.take_sublist _ _).trans (List.drop_sublist _ _)
  rw [hydrate_byCreatedAt hc _ (fun x hx => List.mem_reverse.mp (hsub.subset hx))]
  have hrev : (v.zsets keyByCreatedAt).entries.reverse.Pairwise (fun a b => ZEntry.le b a) :=
    List.pairwise_reverse.mpr (v.zsets keyByCreatedAt).sorted
  have hpw := hrev.sublist hsub
  unfold List.Sorted
  rw [List.pairwise_map]
  exact hpw.imp (fun hab => ZEntry.score_le_of_le hab)

/-- Witness of C7: TestListByCreatedAt_Order, `older` applied before `newer`. -/
theorem chronological_order_witness :
    Reachable rfc3339 (viewAfter [(none, olderEvent), (none, newerEvent)]) ∧
    ListByCreatedAt none none (viewAfter [(none, olderEvent), (none, newerEvent)]) 0 49 =
      .ok [SignalFromMap newerEvent.Fields, SignalFromMap olderEvent.Fields] ∧
    ([SignalFromMap newerEvent.Fields, SignalFromMap olderEvent.Fields].map
      (fun s => parseTimestamp rfc3339 s.CreatedAt)).Sorted (fun a b => a ≥ b) :=
  have hlist : ListByCreatedAt none none (viewAfter [(none, olderEvent), (none, newerEvent)])
      0 49 = .ok [SignalFromMap newerEvent.Fields, SignalFromMap olderEvent.Fields] := by
    decide
  ⟨reachable_viewAfter _, hlist,
    (chronological_order rfc3339 _ (reachable_viewAfter _) 0 49).2 none none _ hlist⟩

theorem priorityScores_eq_zero_iff (p : String) :
    priorityScores p = 0 ↔ p ≠ "Low" ∧ p ≠ "Medium" ∧ p ≠ "High" := by
  unfold priorityScores
  split_ifs <;> simp_all

theorem ZSet.rangeByScore_nodup (z : ZSet) (min max : Int) :
    (z.rangeByScore min max).Nodup :=
  z.nodup.sublist ((List.filter_sublist z.entries).map ZEntry.member)

theorem mem_listByPriority {tp : String → Option Int} {v : View} (hv : Consistent tp v)
    (p : String) (s : Signal) :
    s ∈ hydrateSignals
        (((v.zsets keyByPriority).rangeByScore (priorityScores p) (priorityScores p)).map
          (fun id => v.hashes (signalKey id))) ↔
      ∃ id, v.hashes (signalKey id) ≠ [] ∧ s = SignalFromMap (v.hashes (signalKey id)) ∧
        priorityScores s.Priority = priorityScores p := by
  rw [mem_hydrateSignals]
  constructor
  · rintro ⟨data, hdata, hne, rfl⟩
    obtain ⟨id, hid, rfl⟩ := List.mem_map.mp hdata
    refine ⟨id, hne, rfl, ?_⟩
    obtain ⟨x, hx, hm, hlo, hhi⟩ := (ZSet.mem_rangeByScore _ _ _ _).mp hid
    obtain ⟨e, _, h0, hs⟩ := consistent_of_mem_byPriority hv hx
    rw [hm] at h0
    rw [h0, signalFromMap_fields, ← hs]
    exact le_antisymm hhi hlo
  · rintro ⟨id, hne, rfl, hp⟩
    refine ⟨_, List.mem_map.mpr ⟨id, ?_, rfl⟩, hne, rfl⟩
    obtain ⟨e, _, h0, _, h2⟩ := consistent_record hv id hne
    rw [h0, signalFromMap_fields] at hp
    simp only at hp
    exact (ZSet.mem_rangeByScore _ _ _ _).mpr ⟨_, h2, rfl, le_of_eq hp.symm, le_of_eq hp⟩

theorem listByPriority_nodup {tp : String → Option Int} {v : View} (hv : Consistent tp v)
    (p : String) :
    (hydrateSignals
        (((v.zsets keyByPriority).rangeByScore (priorityScores p) (priorityScores p)).map
          (fun id => v.hashes (signalKey id)))).Nodup := by
  have hne : ∀ id ∈ (v.zsets keyByPriority).rangeByScore (priorityScores p) (priorityScores p),
      v.hashes (signalKey id) ≠ [] := by
    intro id hid
    obtain ⟨x, hx, hm, _⟩ := (ZSet.mem_rangeByScore _ _ _ _).mp hid
    obtain ⟨e, _, h0, _⟩ := consistent_of_mem_byPriority hv hx
    rw [← hm, h0]
    exact fields_ne_nil e
  rw [hydrateSignals_all]
  · rw [List.map_map]
    apply List.Nodup.map_on _ (ZSet.rangeByScore_nodup _ _ _)
    intro a ha b hb hab
    have := congrArg Signal.ID hab
    simp only [Function.comp_apply] at this
    rwa [consistent_signal_id hv a (hne a ha), consistent_signal_id hv b (hne b hb)] at this
  · intro data hdata
    obtain ⟨id, hid, rfl⟩ := List.mem_map.mp hdata
    exact hne id hid

/-- C8 (priority filter). In a view reachable from the empty view, for every
string p ListByPriority(p) returns a list when the store reads succeed; any
successful call returns that list; it has no repeated Signal, and a Signal is
in it exactly when it is the stored record of some id and its stored priority
has the same ordinal as p. For a p other than Low, Medium and High these are
exactly the stored records whose priority is itself none of the three. -/
theorem priority_filter_exact (tp : String → Option Int) (v : View) (hv : Reachable tp v)
    (p : String) :
    ∃ signals, ListByPriority none none v p = .ok signals ∧
      (∀ (scan fetch : Option StoreError) (other : List Signal),
        ListByPriority scan fetch v p = .ok other → other = signals) ∧
      signals.Nodup ∧
      (∀ s, s ∈ signals ↔
        ∃ id, v.hashes (signalKey id) ≠ [] ∧ s = SignalFromMap (v.hashes (signalKey id)) ∧
          priorityScores s.Priority = priorityScores p) ∧
      (p ≠ "Low" → p ≠ "Medium" → p ≠ "High" →
        ∀ s, s ∈ signals ↔
          ∃ id, v.hashes (signalKey id) ≠ [] ∧ s = SignalFromMap (v.hashes (signalKey id)) ∧
            s.Priority ≠ "Low" ∧ s.Priority ≠ "Medium" ∧ s.Priority ≠ "High") := by
  have hc := reachable_consistent hv
  refine ⟨_, ListByPriority_none v p, fun scan fetch other h => ListByPriority_ok h,
    listByPriority_nodup hc p, mem_listByPriority hc p, ?_⟩
  intro h1 h2 h3 s
  have hp0 : priorityScores p = 0 := (priorityScores_eq_zero_iff p).mpr ⟨h1, h2, h3⟩
  rw [mem_listByPriority hc p s]
  constructor
  · rintro ⟨id, hne, hs, hp⟩
    exact ⟨id, hne, hs, (priorityScores_eq_zero_iff _).mp (hp.trans hp0)⟩
  · rintro ⟨id, hne, hs, hp⟩
    exact ⟨id, hne, hs, ((priorityScores_eq_zero_iff _).mpr hp).trans hp0.symm⟩

/-- Witness of C8: TestListByPriority_Filter, one High and one Low signal,
filtered by High. -/
theorem priority_filter_exact_witness :
    Reachable rfc3339 (viewAfter [(none, highEvent), (none, lowEvent)]) ∧
    ListByPriority none none (viewAfter [(none, highEvent), (none, lowEvent)]) "High" =
      .ok [SignalFromMap highEvent.Fields] ∧
    ∃ signals,
      ListByPriority none none (viewAfter [(none, highEvent), (none, lowEvent)]) "High" =
        .ok signals ∧
      signals.Nodup ∧
      (∀ s, s ∈ signals ↔
        ∃ id, (viewAfter [(none, highEvent), (none, lowEvent)]).hashes (signalKey id) ≠ [] ∧
          s = SignalFromMap
            ((viewAfter [(none, highEvent), (none, lowEvent)]).hashes (signalKey id)) ∧
          priorityScores s.Priority = priorityScores "High") :=
  have h := priority_filter_exact rfc3339 _ (reachable_viewAfter
    [(none, highEvent), (none, lowEvent)]) "High"
  ⟨reachable_viewAfter _, by decide,
    h.elim (fun signals hs => ⟨signals, hs.1, hs.2.2.1, hs.2.2.2.1⟩)⟩

/-! ## Idempotence of the writes -/

theorem bound_hsetField_same (h : GoMap) (field value : String) :
    Bound (hsetField h field value) field value := by
  unfold hsetField Bound
  by_cases hany : h.any (fun p => p.1 == field) = true
  · rw [if_pos hany]
    constructor
    · obtain ⟨p, hp, hpf⟩ := List.any_eq_true.mp hany
      refine List.any_eq_true.mpr ⟨(field, value), List.mem_map.mpr ⟨p, hp, ?_⟩, by simp⟩
      have : p.1 = field := by simpa using hpf
      rw [if_pos this]
    · intro q hq hqf
      obtain ⟨p, _, rfl⟩ := List.mem_map.mp hq
      by_cases hpf : p.1 = field
      · rw [if_pos hpf]
      · rw [if_neg hpf] at hqf
        exact absurd hqf hpf
  · rw [if_neg hany]
    constructor
    · simp
    · intro q hq hqf
      rcases List.mem_append.mp hq with hq | hq
      · exact absurd (List.any_eq_true.mpr ⟨q, hq, by simpa using hqf⟩) hany
      · rw [List.mem_singleton.mp hq]

theorem bound_hsetField_other (h : GoMap) (field value field' value' : String)
    (hne : field' ≠ field) (hb : Bound h field' value') :
    Bound (hsetField h field value) field' value' := by
  obtain ⟨hany', hall'⟩ := hb
  obtain ⟨p', hp', hpf'⟩ := List.any_eq_true.mp hany'
  have hq' : p'.1 = field' := by simpa using hpf'
  unfold hsetField Bound
  by_cases hany : h.any (fun p => p.1 == field) = true
  · rw [if_pos hany]
    constructor
    · refine List.any_eq_true.mpr ⟨p', List.mem_map.mpr ⟨p', hp', ?_⟩, hpf'⟩
      rw [if_neg (fun hh => hne (hq' ▸ hh))]
    · intro q hq hqf
      obtain ⟨p, hp, rfl⟩ := List.mem_map.mp hq
      by_cases hpf : p.1 = field
      · rw [if_pos hpf] at hqf
        exact absurd hqf.symm hne
      · rw [if_neg hpf] at hqf ⊢
        exact hall' p hp hqf
  · rw [if_neg hany]
    constructor
    · exact List.any_eq_true.mpr ⟨p', List.mem_append_left _ hp', hpf'⟩
    · intro q hq hqf
      rcases List.mem_append.mp hq with hq | hq
      · exact hall' q hq hqf
      · rw [List.mem_singleton.mp hq] at hqf
        exact absurd hqf.symm hne

theorem hsetField_of_bound (h : GoMap) (field value : String) (hb : Bound h field value) :
    hsetField h field value = h := by
  unfold hsetField
  rw [if_pos hb.1]
  conv_rhs => rw [← List.map_id h]
  apply List.map_congr_left
  intro p hp
  by_cases hpf : p.1 = field
  · rw [if_pos hpf]
    exact Prod.ext hpf.symm (hb.2 p hp hpf).symm
  · rw [if_neg hpf]; rfl

theorem hsetAll_of_bound (values : GoMap) (h : GoMap)
    (hb : ∀ p ∈ values, Bound h p.1 p.2) : hsetAll h values = h := by
  induction values generalizing h with
  | nil => rfl
  | cons q values ih =>
    have hq : hsetField h q.1 q.2 = h := hsetField_of_bound h q.1 q.2 (hb q (List.mem_cons_self _ _))
    show hsetAll (hsetField h q.1 q.2) values = h
    rw [hq]
    exact ih h (fun p hp => hb p (List.mem_cons_of_mem _ hp))

theorem bound_hsetAll_other (values : GoMap) (h : GoMap) (field value : String)
    (hnot : field ∉ values.map Prod.fst) (hb : Bound h field value) :
    Bound (hsetAll h values) field value := by
  induction values generalizing h with
  | nil => exact hb
  | cons q values ih =>
    rw [List.map_cons, List.mem_cons, not_or] at hnot
    show Bound (hsetAll (hsetField h q.1 q.2) values) field value
    exact ih _ hnot.2 (bound_hsetField_other h q.1 q.2 field value hnot.1 hb)

theorem bound_hsetAll (values : GoMap) (h : GoMap) (hnd : (values.map Prod.fst).Nodup) :
    ∀ p ∈ values, Bound (hsetAll h values) p.1 p.2 := by
  induction values generalizing h with
  | nil => intro p hp; cases hp
  | cons q values ih =>
    rw [List.map_cons, List.nodup_cons] at hnd
    intro p hp
    show Bound (hsetAll (hsetField h q.1 q.2) values) p.1 p.2
    rcases List.mem_cons.mp hp with rfl | hp
    · exact bound_hsetAll_other values _ _ _ hnd.1 (bound_hsetField_same h _ _)
    · exact ih _ hnd.2 p hp

theorem fields_keys_nodup (e : SignalEvent) : (e.Fields.map Prod.fst).Nodup := by
  simp [SignalEvent.Fields]

theorem hsetAll_idem (h : GoMap) (e : SignalEvent) :
    hsetAll (hsetAll h e.Fields) e.Fields = hsetAll h e.Fields :=
  hsetAll_of_bound _ _ (bound_hsetAll e.Fields h (fields_keys_nodup e))

theorem upsert_zsets_other {tp : String → Option Int} {link : Option StoreError} {v w : View}
    {e : SignalEvent} (h : upsert tp link v e = .ok w) (key : String)
    (h1 : key ≠ keyByCreatedAt) (h2 : key ≠ keyByPriority) :
    w.zsets key = v.zsets key := by
  obtain ⟨_, rfl⟩ := (upsert_ok_iff tp link v w e).mp h
  simp [ZAdd, HSet, Function.update, h1, h2]

theorem evict_zsets_other {link : Option StoreError} {v w : View} {id : String}
    (h : evict link v id = .ok w) (key : String)
    (h1 : key ≠ keyByCreatedAt) (h2 : key ≠ keyByPriority) :
    w.zsets key = v.zsets key := by
  obtain ⟨_, rfl⟩ := (evict_ok_iff link v w id).mp h
  simp [ZRem, Del, Function.update, h1, h2]

theorem upsert_upsert {tp : String → Option Int} {l₁ l₂ : Option StoreError} {v w u : View}
    {e : SignalEvent} (h₁ : upsert tp l₁ v e = .ok w) (h₂ : upsert tp l₂ w e = .ok u) :
    u = w := by
  apply View.ext
  · rw [upsert_hashes h₂, upsert_hashes h₁, Function.update_same, hsetAll_idem,
      Function.update_idem]
  · funext key
    by_cases h1 : key = keyByCreatedAt
    · rw [h1, upsert_byCreatedAt h₂, upsert_byCreatedAt h₁, ZSet.add_add]
    · by_cases h2 : key = keyByPriority
      · rw [h2, upsert_byPriority h₂, upsert_byPriority h₁, ZSet.add_add]
      · rw [upsert_zsets_other h₂ key h1 h2]

theorem evict_evict {l₁ l₂ : Option StoreError} {v w u : View} {id : String}
    (h₁ : evict l₁ v id = .ok w) (h₂ : evict l₂ w id = .ok u) : u = w := by
  apply View.ext
  · rw [evict_hashes h₂, evict_hashes h₁, Function.update_idem]
  · funext key
    by_cases h1 : key = keyByCreatedAt
    · rw [h1, evict_byCreatedAt h₂, evict_byCreatedAt h₁, ZSet.rem_rem]
    · by_cases h2 : key = keyByPriority
      · rw [h2, evict_byPriority h₂, evict_byPriority h₁, ZSet.rem_rem]
      · rw [evict_zsets_other h₂ key h1 h2]

theorem listByCreatedAt_ids {tp : String → Option Int} {v : View} (hv : Consistent tp v)
    (start stop : Int) :
    (hydrateSignals (((v.zsets keyByCreatedAt).revRange start stop).map
        (fun id => v.hashes (signalKey id)))).map Signal.ID =
      (v.zsets keyByCreatedAt).revRange start stop := by
  have hne : ∀ id ∈ (v.zsets keyByCreatedAt).revRange start stop,
      v.hashes (signalKey id) ≠ [] := by
    intro id hid
    obtain ⟨x, hx, hm⟩ := (ZSet.mem_members _ _).mp (ZSet.mem_of_mem_revRange _ _ _ _ hid)
    obtain ⟨e, _, h0, _⟩ := consistent_of_mem_byCreatedAt hv hx
    rw [← hm, h0]
    exact fields_ne_nil e
  rw [hydrateSignals_all]
  · rw [List.map_map, List.map_map]
    conv_rhs => rw [← List.map_id ((v.zsets keyByCreatedAt).revRange start stop)]
    apply List.map_congr_left
    intro id hid
    simp only [Function.comp_apply, id_eq]
    exact consistent_signal_id hv id (hne id hid)
  · intro data hdata
    obtain ⟨id, hid, rfl⟩ := List.mem_map.mp hdata
    exact hne id hid

theorem ZSet.revRange_nodup (z : ZSet) (start stop : Int) : (z.revRange start stop).Nodup := by
  have hrev : (z.entries.reverse.map ZEntry.member).Nodup := by
    rw [List.map_reverse]
    exact List.nodup_reverse.mpr z.nodup
  exact hrev.sublist (z.revRange_sublist start stop)

theorem ZSet.revRange_first_fifty (z : ZSet) (hlen : z.entries.length ≤ 50) :
    z.revRange 0 49 = z.entries.reverse.map ZEntry.member := by
  unfold ZSet.revRange
  have hl : (z.entries.reverse.map ZEntry.member).length = z.entries.length := by simp
  simp only [hl]
  by_cases h0 : z.entries.length = 0
  · have : z.entries = [] := List.length_eq_zero.mp h0
    simp [this]
  · have hpos : (0 : Int) < z.entries.length := by omega
    have hcond : ¬ (False ∨ (0 : Int) ≥ (z.entries.length : Int)) := by
      rintro (h | h)
      · exact h
      · omega
    simp only [lt_self_iff_false, if_false, show ¬ ((49 : Int) < 0) by omega, if_neg hcond]
    apply List.take_of_length_le
    simp only [Int.toNat_zero, List.drop_zero, hl]
    split_ifs <;> omega

/-- C2 (Apply idempotence), as the code has it. For every view and every event,
applying the event a second time leaves the whole view equal to the view after
the first application. In a view reachable from the empty view, after the same
created event has been applied twice ListByCreatedAt(0, 49) contains at most
one entry for its id, and exactly one when the chronological index then holds
at most 50 ids (as it does when the event was applied to the empty view). -/
theorem apply_idempotent (tp : String → Option Int) (v w u : View) (e : SignalEvent)
    (l₁ l₂ : Option StoreError) (h₁ : Apply tp l₁ v e = .ok w)
    (h₂ : Apply tp l₂ w e = .ok u) :
    u = w ∧
    (Reachable tp v → e.Action = ActionCreated →
      ∃ signals, ListByCreatedAt none none u 0 49 = .ok signals ∧
        (signals.map Signal.ID).count e.ID ≤ 1 ∧
        ((u.zsets keyByCreatedAt).entries.length ≤ 50 →
          (signals.map Signal.ID).count e.ID = 1)) := by
  have huw : u = w := by
    by_cases hd : e.Action = ActionDeleted
    · rw [Apply_deleted tp _ _ e hd] at h₁ h₂
      exact evict_evict h₁ h₂
    · rw [Apply_not_deleted tp _ _ e hd] at h₁ h₂
      exact upsert_upsert h₁ h₂
  refine ⟨huw, ?_⟩
  intro hv hcreated
  have hc : Consistent tp u := by
    rw [huw]
    exact reachable_consistent (Reachable.apply l₁ e hv h₁)
  refine ⟨_, ListByCreatedAt_none u 0 49, ?_, ?_⟩
  · rw [listByCreatedAt_ids hc]
    exact List.nodup_iff_count_le_one.mp (ZSet.revRange_nodup _ _ _) e.ID
  · intro hlen
    rw [listByCreatedAt_ids hc, ZSet.revRange_first_fifty _ hlen, List.map_reverse,
      List.count_reverse]
    apply ZSet.count_members
    have hnd : e.Action ≠ ActionDeleted := by rw [hcreated]; exact created_ne_deleted
    rw [Apply_not_deleted tp _ _ e hnd] at h₂
    rw [upsert_byCreatedAt h₂, ZSet.mem_members_add]
    exact Or.inl rfl

/-- Witness of C2: TestApply_Idempotent, the same created event applied twice
to the empty view. -/
theorem apply_idempotent_witness :
    Apply rfc3339 none View.empty (sampleEvent ActionCreated "signal-1") =
      .ok (applied View.empty (sampleEvent ActionCreated "signal-1")) ∧
    Apply rfc3339 none (applied View.empty (sampleEvent ActionCreated "signal-1"))
        (sampleEvent ActionCreated "signal-1") =
      .ok (applied (applied View.empty (sampleEvent ActionCreated "signal-1"))
        (sampleEvent ActionCreated "signal-1")) ∧
    applied (applied View.empty (sampleEvent ActionCreated "signal-1"))
        (sampleEvent ActionCreated "signal-1") =
      applied View.empty (sampleEvent ActionCreated "signal-1") ∧
    ∃ signals,
      ListByCreatedAt none none
        (applied (applied View.empty (sampleEvent ActionCreated "signal-1"))
          (sampleEvent ActionCreated "signal-1")) 0 49 = .ok signals ∧
      (signals.map Signal.ID).count "signal-1" = 1 :=
  have h := apply_idempotent rfc3339 View.empty
    (applied View.empty (sampleEvent ActionCreated "signal-1"))
    (applied (applied View.empty (sampleEvent ActionCreated "signal-1"))
      (sampleEvent ActionCreated "signal-1"))
    (sampleEvent ActionCreated "signal-1") none none rfl rfl
  ⟨rfl, rfl, h.1,
    (h.2 Reachable.empty rfl).elim (fun signals hs => ⟨signals, hs.1, hs.2.2 (by decide)⟩)⟩

set_option maxRecDepth 100000

/-- C2, counterexample. Fifty signals newer than `signal-1` are created, then
the created event of `signal-1` is applied twice, every call succeeding.
FindByID finds `signal-1`, but ListByCreatedAt(0, 49) returns the fifty newer
signals and no entry for `signal-1`. -/
theorem apply_twice_window_counterexample :
    Reachable rfc3339 (viewAfter crowd) ∧
    (sampleEvent ActionCreated "signal-1").Action = ActionCreated ∧
    Apply rfc3339 none (viewAfter crowd) (sampleEvent ActionCreated "signal-1") =
      .ok (applied (viewAfter crowd) (sampleEvent ActionCreated "signal-1")) ∧
    Apply rfc3339 none (applied (viewAfter crowd) (sampleEvent ActionCreated "signal-1"))
        (sampleEvent ActionCreated "signal-1") =
      .ok (applied (applied (viewAfter crowd) (sampleEvent ActionCreated "signal-1"))
        (sampleEvent ActionCreated "signal-1")) ∧
    FindByID none (applied (applied (viewAfter crowd) (sampleEvent ActionCreated "signal-1"))
        (sampleEvent ActionCreated "signal-1")) "signal-1" =
      .ok (SignalFromMap (sampleEvent ActionCreated "signal-1").Fields) ∧
    (ListByCreatedAt none none
        (applied (applied (viewAfter crowd) (sampleEvent ActionCreated "signal-1"))
          (sampleEvent ActionCreated "signal-1")) 0 49).map
      (fun signals => (signals.length, (signals.map Signal.ID).count "signal-1")) =
      .ok (50, 0) := by
  refine ⟨reachable_viewAfter _, rfl, rfl, rfl, by decide, ?_⟩
  decide

/-! ## Lifecycle, hydration, last writer -/

/-- C13, counterexample. `signal-1` is created and then deleted, so FindByID
fails with ErrNotFound; an `updated` event for `signal-1` is then applied, and
FindByID returns the record again with the fields of that event. -/
theorem updated_after_delete_counterexample :
    FindByID none deletedView "signal-1" = .error .ErrNotFound ∧
    updatedEvent.ID = "signal-1" ∧
    updatedEvent.Action = ActionUpdated ∧
    updatedEvent.Action ≠ ActionCreated ∧
    Apply rfc3339 none deletedView updatedEvent = .ok (applied deletedView updatedEvent) ∧
    FindByID none (applied deletedView updatedEvent) "signal-1" =
      .ok (SignalFromMap updatedEvent.Fields) ∧
    FindByID none (applied deletedView updatedEvent) "signal-1" ≠ .error .ErrNotFound := by
  refine ⟨by decide, rfl, rfl, by decide, rfl, by decide, by decide⟩

/-- C13, as the code has it. For an id with no primary record (FindByID fails
with ErrNotFound), a successful Apply of an event for that id restores the
record exactly when the event's action is not deleted: created, updated and any
other action run the upsert and FindByID then returns the event's fields; a
deleted event leaves FindByID failing with ErrNotFound. -/
theorem restore_after_delete (tp : String → Option Int) (v : View) (e : SignalEvent)
    (habsent : v.hashes (signalKey e.ID) = []) (link : Option StoreError) (w : View)
    (h : Apply tp link v e = .ok w) :
    FindByID none v e.ID = .error .ErrNotFound ∧
    (e.Action ≠ ActionDeleted →
      FindByID none w e.ID =
        .ok { ID := e.ID, Title := e.Title, Content := e.Content, Priority := e.Priority,
              Author := e.Author, CreatedAt := e.CreatedAt, UpdatedAt := e.UpdatedAt }) ∧
    (e.Action = ActionDeleted → FindByID none w e.ID = .error .ErrNotFound) ∧
    ((∃ s, FindByID none w e.ID = .ok s) ↔ e.Action ≠ ActionDeleted) := by
  have hbefore : FindByID none v e.ID = .error .ErrNotFound := by
    simp [FindByID, HGetAll, habsent]
  have hup : e.Action ≠ ActionDeleted →
      FindByID none w e.ID =
        .ok { ID := e.ID, Title := e.Title, Content := e.Content, Priority := e.Priority,
              Author := e.Author, CreatedAt := e.CreatedAt, UpdatedAt := e.UpdatedAt } := by
    intro hnd
    rw [Apply_not_deleted tp link v e hnd] at h
    have hlen : ¬ (hsetAll (v.hashes (signalKey e.ID)) e.Fields).length = 0 :=
      fun hl => hsetAll_fields_ne_nil _ e (List.length_eq_zero.mp hl)
    simp only [FindByID, HGetAll, upsert_hashes h, Function.update_same, if_neg hlen,
      signalFromMap_hsetAll_fields, signalFromMap_fields]
  have hdel : e.Action = ActionDeleted → FindByID none w e.ID = .error .ErrNotFound := by
    intro hd
    rw [Apply_deleted tp link v e hd] at h
    simp [FindByID, HGetAll, evict_hashes h]
  refine ⟨hbefore, hup, hdel, ?_⟩
  constructor
  · rintro ⟨s, hs⟩ hd
    rw [hdel hd] at hs
    cases hs
  · intro hnd
    exact ⟨_, hup hnd⟩

/-- Witness of the amended C13: the `updated` event on the view where
`signal-1` was deleted. -/
theorem restore_after_delete_witness :
    deletedView.hashes (signalKey updatedEvent.ID) = [] ∧
    Apply rfc3339 none deletedView updatedEvent = .ok (applied deletedView updatedEvent) ∧
    updatedEvent.Action ≠ ActionDeleted ∧
    FindByID none (applied deletedView updatedEvent) updatedEvent.ID =
      .ok { ID := updatedEvent.ID, Title := updatedEvent.Title, Content := updatedEvent.Content,
            Priority := updatedEvent.Priority, Author := updatedEvent.Author,
            CreatedAt := updatedEvent.CreatedAt, UpdatedAt := updatedEvent.UpdatedAt } :=
  have h := restore_after_delete rfc3339 deletedView updatedEvent (by decide) none
    (applied deletedView updatedEvent) rfl
  ⟨by decide, rfl, by decide, h.2.1 (by decide)⟩

theorem hydrateSignals_eq_filter (commands : List GoMap) :
    hydrateSignals commands =
      (commands.filter (fun data => decide (data ≠ []))).map SignalFromMap := by
  induction commands with
  | nil => rfl
  | cons data commands ih =>
    unfold hydrateSignals
    by_cases hlen : data.length = 0
    · have hnil : data = [] := List.length_eq_zero.mp hlen
      rw [if_pos hlen, ih]
      simp [hnil]
    · have hne : data ≠ [] := fun h => hlen (by rw [h]; rfl)
      rw [if_neg hlen, ih]
      simp [hne]

theorem hydrateSignalsSlice_fold (commands : List GoMap) (acc : List Signal) :
    commands.foldl
        (fun signals data =>
          if data.length = 0 then signals else signals.append (SignalFromMap data))
        (Slice.of acc) =
      Slice.of (acc ++ hydrateSignals commands) := by
  induction commands generalizing acc with
  | nil => simp [hydrateSignals]
  | cons data commands ih =>
    rw [List.foldl_cons, hydrateSignals]
    by_cases hlen : data.length = 0
    · rw [if_pos hlen, if_pos hlen, ih]
    · rw [if_neg hlen, if_neg hlen]
      show List.foldl _ (Slice.of (acc ++ [SignalFromMap data])) commands = _
      rw [ih, List.append_assoc]
      rfl

/-- The slice hydrateSignals returns is never nil, and its elements are the
list `hydrateSignals` of the embedding. -/
theorem hydrateSignalsSlice_eq (commands : List GoMap) :
    hydrateSignalsSlice commands = Slice.of (hydrateSignals commands) := by
  unfold hydrateSignalsSlice Slice.make
  rw [hydrateSignalsSlice_fold, List.nil_append]

/-- The result pair of fetchMany, read as a list or an error, is `fetchMany`
of the embedding. -/
theorem fetchManySlice_toExcept (link : Option StoreError) (v : View) (ids : List String) :
    Slice.toExcept (fetchManySlice link v ids) = fetchMany link v ids := by
  unfold fetchManySlice fetchMany
  by_cases hlen : ids.length = 0
  · rw [if_pos hlen, if_pos hlen]
    rfl
  · rw [if_neg hlen, if_neg hlen]
    cases link with
    | none =>
      show Except.ok (hydrateSignalsSlice _).elems = Except.ok (hydrateSignals _)
      rw [hydrateSignalsSlice_eq]
      rfl
    | some err => rfl

theorem fetchManySlice_ok {link : Option StoreError} {v : View} {ids : List String}
    {s : Slice Signal} (h : fetchManySlice link v ids = (s, none)) :
    s = Slice.of (hydrateSignals (ids.map (fun id => v.hashes (signalKey id)))) := by
  unfold fetchManySlice at h
  by_cases hlen : ids.length = 0
  · have hnil : ids = [] := List.length_eq_zero.mp hlen
    rw [if_pos hlen] at h
    rw [← (Prod.mk.inj h).1, hnil]
    rfl
  · rw [if_neg hlen] at h
    cases link with
    | none =>
      have h1 : hydrateSignalsSlice ((ids.map signalKey).map v.hashes) = s :=
        (Prod.mk.inj h).1
      rw [← h1, hydrateSignalsSlice_eq, List.map_map]
      rfl
    | some err =>
      exact absurd (Prod.mk.inj h).2 (by simp)

/-- C18 (hydration is an order-preserving filter). hydrateSignals returns
SignalFromMap of exactly the non-empty field maps, in input order, so never
more Signals than field maps; whatever fetchMany returns is that filter of the
records of its ids and is no longer than the id list; with the store read
succeeding an id whose record is empty is dropped and no error is returned;
and for an empty id list fetchMany returns the empty list without an error,
whatever the state of the store connection. On slices that carry nil: for an
empty id list fetchMany returns, with a nil error, a slice that is not nil and
has length 0; the slice of hydrateSignals is never nil and holds that filter;
every slice fetchMany returns with a nil error is not nil and holds that
filter; read as a list or an error, the result pair is `fetchMany`; and the
nil slice is returned only with the error of a failed pipeline. -/
theorem hydrate_order_preserving_filter (commands : List GoMap) (v : View)
    (ids : List String) :
    hydrateSignals commands =
      (commands.filter (fun data => decide (data ≠ []))).map SignalFromMap ∧
    (hydrateSignals commands).length ≤ commands.length ∧
    fetchMany none v ids =
      .ok (((ids.map (fun id => v.hashes (signalKey id))).filter
        (fun data => decide (data ≠ []))).map SignalFromMap) ∧
    (∀ (link : Option StoreError) (signals : List Signal),
      fetchMany link v ids = .ok signals →
        signals = ((ids.map (fun id => v.hashes (signalKey id))).filter
          (fun data => decide (data ≠ []))).map SignalFromMap ∧
        signals.length ≤ ids.length) ∧
    (∀ link : Option StoreError, fetchMany link v [] = .ok []) ∧
    (∀ link : Option StoreError,
      fetchManySlice link v [] = (Slice.of [], none) ∧
      (fetchManySlice link v []).1 ≠ Slice.nil ∧
      (fetchManySlice link v []).1.isNil = false ∧
      (fetchManySlice link v []).1.len = 0) ∧
    (hydrateSignalsSlice commands =
        Slice.of ((commands.filter (fun data => decide (data ≠ []))).map SignalFromMap) ∧
      hydrateSignalsSlice commands ≠ Slice.nil) ∧
    (∀ (link : Option StoreError) (s : Slice Signal),
      fetchManySlice link v ids = (s, none) →
        s = Slice.of (((ids.map (fun id => v.hashes (signalKey id))).filter
          (fun data => decide (data ≠ []))).map SignalFromMap) ∧
        s ≠ Slice.nil ∧ s.isNil = false ∧ s.len ≤ ids.length) ∧
    (∀ link : Option StoreError,
      Slice.toExcept (fetchManySlice link v ids) = fetchMany link v ids) ∧
    (∀ link : Option StoreError, (fetchManySlice link v ids).1 = Slice.nil →
      ids ≠ [] ∧ link ≠ none ∧ (fetchManySlice link v ids).2 = link) := by
  have hlen : ∀ l : List GoMap, (hydrateSignals l).length ≤ l.length := by
    intro l
    rw [hydrateSignals_eq_filter, List.length_map]
    exact List.length_filter_le _ _
  refine ⟨hydrateSignals_eq_filter commands, hlen commands, ?_, ?_, ?_, ?_, ?_, ?_, ?_, ?_⟩
  · rw [fetchMany_none, hydrateSignals_eq_filter]
  · intro link signals h
    have hs := fetchMany_ok h
    refine ⟨by rw [hs, hydrateSignals_eq_filter], ?_⟩
    rw [hs]
    exact (hlen _).trans (by simp)
  · intro link
    simp [fetchMany]
  · intro link
    have h0 : fetchManySlice link v [] = (Slice.of [], none) := rfl
    rw [h0]
    exact ⟨rfl, fun hnil => Slice.noConfusion hnil, rfl, rfl⟩
  · rw [hydrateSignalsSlice_eq, hydrateSignals_eq_filter]
    exact ⟨rfl, fun hnil => Slice.noConfusion hnil⟩
  · intro link s h
    have hs := fetchManySlice_ok h
    rw [hs]
    refine ⟨by rw [hydrateSignals_eq_filter], fun hnil => Slice.noConfusion hnil, rfl, ?_⟩
    show (hydrateSignals _).length ≤ ids.length
    exact (hlen _).trans (by simp)
  · exact fun link => fetchManySlice_toExcept link v ids
  · intro link hnil
    unfold fetchManySlice at hnil ⊢
    by_cases hl : ids.length = 0
    · rw [if_pos hl] at hnil
      exact Slice.noConfusion hnil
    · have hne : ids ≠ [] := fun h0 => hl (by rw [h0]; rfl)
      rw [if_neg hl] at hnil ⊢
      cases link with
      | none =>
        have hnil2 : hydrateSignalsSlice ((ids.map signalKey).map v.hashes) = Slice.nil := hnil
        rw [hydrateSignalsSlice_eq] at hnil2
        exact Slice.noConfusion hnil2
      | some err => exact ⟨hne, by simp, rfl⟩

/-- Witness of C18: hydration of `signal-1` and of an id whose record is gone,
on the view that holds only `signal-1`. -/
theorem hydrate_order_preserving_filter_witness :
    fetchMany none seeded ["ghost", "signal-1"] =
      .ok [SignalFromMap (sampleEvent ActionCreated "signal-1").Fields] ∧
    [SignalFromMap (sampleEvent ActionCreated "signal-1").Fields] =
      ((["ghost", "signal-1"].map (fun id => seeded.hashes (signalKey id))).filter
        (fun data => decide (data ≠ []))).map SignalFromMap ∧
    [SignalFromMap (sampleEvent ActionCreated "signal-1").Fields].length ≤
      ["ghost", "signal-1"].length ∧
    fetchManySlice none seeded ["ghost", "signal-1"] =
      (Slice.of [SignalFromMap (sampleEvent ActionCreated "signal-1").Fields], none) ∧
    Slice.of [SignalFromMap (sampleEvent ActionCreated "signal-1").Fields] ≠ Slice.nil ∧
    fetchManySlice (some ⟨"connection refused"⟩) seeded ["ghost", "signal-1"] =
      (Slice.nil, some ⟨"connection refused"⟩) ∧
    fetchManySlice (some ⟨"connection refused"⟩) seeded [] = (Slice.of [], none) :=
  have hfetch : fetchMany none seeded ["ghost", "signal-1"] =
      .ok [SignalFromMap (sampleEvent ActionCreated "signal-1").Fields] := by decide
  have hslice : fetchManySlice none seeded ["ghost", "signal-1"] =
      (Slice.of [SignalFromMap (sampleEvent ActionCreated "signal-1").Fields], none) := by
    decide
  have hall := hydrate_order_preserving_filter [] seeded ["ghost", "signal-1"]
  have h := hall.2.2.2.1 none _ hfetch
  have hs := hall.2.2.2.2.2.2.2.1 none _ hslice
  ⟨hfetch, h.1, h.2, hslice, hs.2.1, by decide,
    ((hydrate_order_preserving_filter [] seeded []).2.2.2.2.2.1 (some ⟨"connection refused"⟩)).1⟩

theorem ZSet.add_add_same_member (z : ZSet) (s₁ s₂ : Int) (member : String) :
    (z.add s₁ member).add s₂ member = z.add s₂ member := by
  apply ZSet.ext
  show ((z.add s₁ member).rem member).entries.orderedInsert ZEntry.le ⟨s₂, member⟩ = _
  rw [ZSet.rem_add]
  rfl

theorem ZSet.add_rem_same_member (z : ZSet) (s : Int) (member : String) :
    (z.rem member).add s member = z.add s member := by
  apply ZSet.ext
  show ((z.rem member).rem member).entries.orderedInsert ZEntry.le ⟨s, member⟩ = _
  rw [ZSet.rem_rem]
  rfl

theorem consistent_hsetAll {tp : String → Option Int} {v : View} (hv : Consistent tp v)
    (id : String) (e : SignalEvent) :
    hsetAll (v.hashes (signalKey id)) e.Fields = e.Fields := by
  rcases hv id with ⟨h0, _, _⟩ | ⟨e₀, _, h0, _, _⟩
  · rw [h0, hsetAll_nil_fields]
  · rw [h0, hsetAll_fields_fields]

theorem apply_hashes_of_consistent {tp : String → Option Int} {link : Option StoreError}
    {v w : View} {e : SignalEvent} (hv : Consistent tp v) (h : Apply tp link v e = .ok w) :
    w.hashes = Function.update v.hashes (signalKey e.ID)
      (if e.Action = ActionDeleted then [] else e.Fields) := by
  by_cases hd : e.Action = ActionDeleted
  · rw [Apply_deleted tp link v e hd] at h
    rw [evict_hashes h, if_pos hd]
  · rw [Apply_not_deleted tp link v e hd] at h
    rw [upsert_hashes h, if_neg hd, consistent_hsetAll hv]

/-- The index entry an event leaves for its id in a sorted set: none for a
deleted event, the id at the given score otherwise. -/
theorem apply_zsets {tp : String → Option Int} {link : Option StoreError}
    {v w : View} {e : SignalEvent} (h : Apply tp link v e = .ok w) (key : String) :
    w.zsets key =
      if key = keyByCreatedAt then
        (if e.Action = ActionDeleted then (v.zsets key).rem e.ID
         else (v.zsets key).add (parseTimestamp tp e.CreatedAt) e.ID)
      else if key = keyByPriority then
        (if e.Action = ActionDeleted then (v.zsets key).rem e.ID
         else (v.zsets key).add (priorityScores e.Priority) e.ID)
      else v.zsets key := by
  by_cases hd : e.Action = ActionDeleted
  · rw [Apply_deleted tp link v e hd] at h
    by_cases h1 : key = keyByCreatedAt
    · rw [if_pos h1, if_pos hd, h1, evict_byCreatedAt h]
    · rw [if_neg h1]
      by_cases h2 : key = keyByPriority
      · rw [if_pos h2, if_pos hd, h2, evict_byPriority h]
      · rw [if_neg h2, evict_zsets_other h key h1 h2]
  · rw [Apply_not_deleted tp link v e hd] at h
    by_cases h1 : key = keyByCreatedAt
    · rw [if_pos h1, if_neg hd, h1, upsert_byCreatedAt h]
    · rw [if_neg h1]
      by_cases h2 : key = keyByPriority
      · rw [if_pos h2, if_neg hd, h2, upsert_byPriority h]
      · rw [if_neg h2, upsert_zsets_other h key h1 h2]

/-- C20 (last writer wins per id). In a view reachable from the empty view,
for two events with the same id and any actions, the view after Apply of the
first and then of the second equals the view after Apply of the second alone.
And what Apply leaves for the event's id (its record and its score in each
index) is the same from any two reachable views: it is fixed by the event. -/
theorem last_writer_wins (tp : String → Option Int) (v : View) (hv : Reachable tp v)
    (e₁ e₂ : SignalEvent) (hid : e₁.ID = e₂.ID) (l₁ l₂ l₃ : Option StoreError)
    (w₁ w₁₂ w₂ : View) (h₁ : Apply tp l₁ v e₁ = .ok w₁) (h₁₂ : Apply tp l₂ w₁ e₂ = .ok w₁₂)
    (h₂ : Apply tp l₃ v e₂ = .ok w₂) :
    w₁₂ = w₂ ∧
    ∀ (v' : View) (l' : Option StoreError) (w' : View), Reachable tp v' →
      Apply tp l' v' e₂ = .ok w' →
      w'.hashes (signalKey e₂.ID) = w₂.hashes (signalKey e₂.ID) ∧
      (w'.zsets keyByCreatedAt).score? e₂.ID = (w₂.zsets keyByCreatedAt).score? e₂.ID ∧
      (w'.zsets keyByPriority).score? e₂.ID = (w₂.zsets keyByPriority).score? e₂.ID := by
  have hc := reachable_consistent hv
  have hc₁ : Consistent tp w₁ := consistent_apply hc h₁
  constructor
  · apply View.ext
    · rw [apply_hashes_of_consistent hc₁ h₁₂, apply_hashes_of_consistent hc h₁,
        apply_hashes_of_consistent hc h₂, hid, Function.update_idem]
    · funext key
      rw [apply_zsets h₁₂ key, apply_zsets h₂ key, apply_zsets h₁ key, hid]
      by_cases h1 : key = keyByCreatedAt
      · simp only [if_pos h1]
        by_cases hd₁ : e₁.Action = ActionDeleted <;> by_cases hd₂ : e₂.Action = ActionDeleted <;>
          simp only [hd₁, hd₂, if_true, if_false, ZSet.rem_rem, ZSet.rem_add,
            ZSet.add_rem_same_member, ZSet.add_add_same_member]
      · simp only [if_neg h1]
        by_cases h2 : key = keyByPriority
        · simp only [if_pos h2]
          by_cases hd₁ : e₁.Action = ActionDeleted <;>
            by_cases hd₂ : e₂.Action = ActionDeleted <;>
            simp only [hd₁, hd₂, if_true, if_false, ZSet.rem_rem, ZSet.rem_add,
              ZSet.add_rem_same_member, ZSet.add_add_same_member]
        · simp only [if_neg h2]
  · intro v' l' w' hv' h'
    have hc' := reachable_consistent hv'
    refine ⟨?_, ?_, ?_⟩
    · rw [apply_hashes_of_consistent hc' h', apply_hashes_of_consistent hc h₂,
        Function.update_same, Function.update_same]
    · rw [apply_zsets h' keyByCreatedAt, apply_zsets h₂ keyByCreatedAt]
      simp only [if_true]
      by_cases hd : e₂.Action = ActionDeleted
      · simp only [if_pos hd]
        rw [(ZSet.score?_eq_none _ _).mpr (ZSet.not_mem_members_rem _ _),
          (ZSet.score?_eq_none _ _).mpr (ZSet.not_mem_members_rem _ _)]
      · simp only [if_neg hd]
        rw [(ZSet.score?_eq_some _ _ _).mpr ((ZSet.mem_add _ _ _ _).mpr (Or.inl rfl)),
          (ZSet.score?_eq_some _ _ _).mpr ((ZSet.mem_add _ _ _ _).mpr (Or.inl rfl))]
    · rw [apply_zsets h' keyByPriority, apply_zsets h₂ keyByPriority]
      simp only [if_neg keyByCreatedAt_ne_keyByPriority.symm, if_true]
      by_cases hd : e₂.Action = ActionDeleted
      · simp only [if_pos hd]
        rw [(ZSet.score?_eq_none _ _).mpr (ZSet.not_mem_members_rem _ _),
          (ZSet.score?_eq_none _ _).mpr (ZSet.not_mem_members_rem _ _)]
      · simp only [if_neg hd]
        rw [(ZSet.score?_eq_some _ _ _).mpr ((ZSet.mem_add _ _ _ _).mpr (Or.inl rfl)),
          (ZSet.score?_eq_some _ _ _).mpr ((ZSet.mem_add _ _ _ _).mpr (Or.inl rfl))]

/-- Witness of C20: on the view holding `signal-1`, the delete followed by the
update of TestApply_Updated, against the update alone. -/
theorem last_writer_wins_witness :
    Reachable rfc3339 seeded ∧
    (deleteEvent "signal-1").ID = updatedEvent.ID ∧
    Apply rfc3339 none seeded (deleteEvent "signal-1") = .ok deletedView ∧
    Apply rfc3339 none deletedView updatedEvent = .ok (applied deletedView updatedEvent) ∧
    Apply rfc3339 none seeded updatedEvent = .ok (applied seeded updatedEvent) ∧
    applied deletedView updatedEvent = applied seeded updatedEvent :=
  ⟨reachable_viewAfter _, rfl, rfl, rfl, rfl,
    (last_writer_wins rfc3339 seeded (reachable_viewAfter _) (deleteEvent "signal-1")
      updatedEvent rfl none none none deletedView (applied deletedView updatedEvent)
      (applied seeded updatedEvent) rfl rfl rfl).1⟩

/-! ## The read API -/

/-- C14, counterexample. On the view holding `signal-1` (priority High), the
request `GET /signals?priority=` carries a priority parameter whose value is
the empty string. ListByPriority of that value returns no Signal, but the
handler answers 200 with `signal-1`: it took the ListByCreatedAt(0, 49) path. -/
theorem empty_priority_routing_counterexample :
    Query.Get [("priority", "")] "priority" = "" ∧
    ListByPriority none none seeded "" = .ok [] ∧
    ListByCreatedAt none none seeded 0 49 =
      .ok [SignalFromMap (sampleEvent ActionCreated "signal-1").Fields] ∧
    listSignals none none seeded [("priority", "")] =
      [writeJSON StatusOK
        (.signals [SignalFromMap (sampleEvent ActionCreated "signal-1").Fields])] ∧
    listSignals none none seeded [("priority", "")] ≠ [writeJSON StatusOK (.signals [])] := by
  refine ⟨by decide, by decide, by decide, by decide, by decide⟩

/-- C14, as the code has it. For every `GET /signals` request: when the first
value of the query's priority parameter is a non-empty X, the handler answers
with the result of ListByPriority(X); when the parameter is absent or its first
value is empty, with the result of ListByCreatedAt(0, 49). In both cases it
writes one response, 200 with the list on success and 500 on a store error. -/
theorem list_routing (scan fetch : Option StoreError) (v : View) (query : Query) :
    (query.Get "priority" ≠ "" →
      (∀ signals, ListByPriority scan fetch v (query.Get "priority") = .ok signals →
        listSignals scan fetch v query = [writeJSON StatusOK (.signals signals)]) ∧
      (∀ err, ListByPriority scan fetch v (query.Get "priority") = .error err →
        listSignals scan fetch v query =
          [writeError StatusInternalServerError "failed to list signals"])) ∧
    (query.Get "priority" = "" →
      (∀ signals, ListByCreatedAt scan fetch v 0 49 = .ok signals →
        listSignals scan fetch v query = [writeJSON StatusOK (.signals signals)]) ∧
      (∀ err, ListByCreatedAt scan fetch v 0 49 = .error err →
        listSignals scan fetch v query =
          [writeError StatusInternalServerError "failed to list signals"])) := by
  constructor
  · intro hp
    constructor
    · intro signals h
      simp only [listSignals, fetchSignals, if_pos hp, h]
    · intro err h
      simp only [listSignals, fetchSignals, if_pos hp, h]
  · intro hp
    have hn : ¬ query.Get "priority" ≠ "" := fun h => h hp
    constructor
    · intro signals h
      simp only [listSignals, fetchSignals, if_neg hn, h]
    · intro err h
      simp only [listSignals, fetchSignals, if_neg hn, h]

/-- Witness of the amended C14: TestListSignals_FilterByPriority and
TestListSignals_ReturnsSeededSignals on the view with `high-1` and `low-1`. -/
theorem list_routing_witness :
    Query.Get [("priority", "Low")] "priority" ≠ "" ∧
    ListByPriority none none (viewAfter [(none, highEvent), (none, lowEvent)])
        (Query.Get [("priority", "Low")] "priority") =
      .ok [SignalFromMap lowEvent.Fields] ∧
    listSignals none none (viewAfter [(none, highEvent), (none, lowEvent)])
        [("priority", "Low")] =
      [writeJSON StatusOK (.signals [SignalFromMap lowEvent.Fields])] ∧
    Query.Get [] "priority" = "" ∧
    listSignals none none (viewAfter [(none, highEvent), (none, lowEvent)]) [] =
      [writeJSON StatusOK
        (.signals [SignalFromMap highEvent.Fields, SignalFromMap lowEvent.Fields])] :=
  have hlow : ListByPriority none none (viewAfter [(none, highEvent), (none, lowEvent)])
      (Query.Get [("priority", "Low")] "priority") = .ok [SignalFromMap lowEvent.Fields] := by
    decide
  have hall : ListByCreatedAt none none (viewAfter [(none, highEvent), (none, lowEvent)])
      0 49 = .ok [SignalFromMap highEvent.Fields, SignalFromMap lowEvent.Fields] := by
    decide
  ⟨by decide, hlow,
    ((list_routing none none _ [("priority", "Low")]).1 (by decide)).1 _ hlow,
    by decide,
    ((list_routing none none _ []).2 (by decide)).1 _ hall⟩

/-- C15 (point-lookup status mapping). `GET /signals/{id}` answers 200 with the
Signal when FindByID succeeds, 404 with the body `error: signal not found` when
the error is ErrNotFound, also wrapped inside other errors, and 500 with
`error: failed to get signal` for every other error; the handler writes exactly
one response. With FindByID as the projection has it: 404 when the read
succeeds on an empty record, 200 on a non-empty one, 500 when the read fails. -/
theorem get_signal_status_mapping (link : Option StoreError) (v : View) (id : String)
    (found : Except GoError Signal) :
    (∀ s, found = .ok s → getSignalWith found = [writeJSON StatusOK (.signal s)]) ∧
    (∀ err, found = .error err → isErrNotFound err = true →
      getSignalWith found = [writeError StatusNotFound "signal not found"]) ∧
    (∀ text, getSignalWith (.error (.wrapped text .ErrNotFound)) =
      [writeError StatusNotFound "signal not found"]) ∧
    (∀ err, found = .error err → isErrNotFound err = false →
      getSignalWith found = [writeError StatusInternalServerError "failed to get signal"]) ∧
    (getSignalWith found).length = 1 ∧
    (getSignal link v id).length = 1 ∧
    (∀ s, FindByID link v id = .ok s → getSignal link v id = [writeJSON StatusOK (.signal s)]) ∧
    (FindByID link v id = .error .ErrNotFound →
      getSignal link v id = [writeError StatusNotFound "signal not found"]) ∧
    (∀ err, FindByID link v id = .error (.store err) →
      getSignal link v id = [writeError StatusInternalServerError "failed to get signal"]) := by
  have hlen : ∀ f : Except GoError Signal, (getSignalWith f).length = 1 := by
    intro f
    unfold getSignalWith
    split
    · split <;> rfl
    · rfl
  refine ⟨?_, ?_, ?_, ?_, hlen found, hlen _, ?_, ?_, ?_⟩
  · rintro s rfl
    rfl
  · rintro err rfl herr
    simp only [getSignalWith, herr, if_true]
  · intro text
    rfl
  · rintro err rfl herr
    simp [getSignalWith, herr]
  · intro s h
    simp only [getSignal, h, getSignalWith]
  · intro h
    simp only [getSignal, h, getSignalWith, ProjError.toGo, isErrNotFound, if_true]
  · intro err h
    simp [getSignal, h, getSignalWith, ProjError.toGo, isErrNotFound]

/-- Witness of C15: TestGetSignal_NotFound on the empty view, the lookup of
`signal-1` once created, and a lookup that the store fails. -/
theorem get_signal_status_mapping_witness :
    getSignal none View.empty "nonexistent" = [writeError StatusNotFound "signal not found"] ∧
    getSignal none seeded "signal-1" =
      [writeJSON StatusOK (.signal (SignalFromMap (sampleEvent ActionCreated "signal-1").Fields))] ∧
    getSignal (some ⟨"i/o timeout"⟩) seeded "signal-1" =
      [writeError StatusInternalServerError "failed to get signal"] :=
  ⟨(get_signal_status_mapping none View.empty "nonexistent" (.error .ErrNotFound)).2.2.2.2.2.2.2.1
      (by decide),
    (get_signal_status_mapping none seeded "signal-1" (.error .ErrNotFound)).2.2.2.2.2.2.1 _
      (by decide),
    (get_signal_status_mapping (some ⟨"i/o timeout"⟩) seeded "signal-1"
      (.error .ErrNotFound)).2.2.2.2.2.2.2.2 ⟨"i/o timeout"⟩ (by decide)⟩

/-- C19 (error responses do not depend on the cause). For any two store
errors, each handler writes the same status and body: listSignals 500 with
`failed to list signals` whenever the list call fails, getSignal 500 with
`failed to get signal` whenever FindByID fails with an error that is not
ErrNotFound, health 503 with `redis unhealthy`. The response is a constant, so
nothing of the store error is in it. -/
theorem error_responses_independent (err₁ err₂ : StoreError) (v : View) (query : Query)
    (id : String) :
    (∀ (scan fetch scan' fetch' : Option StoreError),
      fetchSignals scan fetch v (query.Get "priority") = .error err₁ →
      fetchSignals scan' fetch' v (query.Get "priority") = .error err₂ →
      listSignals scan fetch v query = listSignals scan' fetch' v query ∧
      listSignals scan fetch v query =
        [{ status := 500, contentType := "application/json",
           body := .object [("error", "failed to list signals")] }]) ∧
    (∀ fetch fetch' : Option StoreError,
      listSignals (some err₁) fetch v query = listSignals (some err₂) fetch' v query) ∧
    (getSignal (some err₁) v id = getSignal (some err₂) v id ∧
      getSignal (some err₁) v id =
        [{ status := 500, contentType := "application/json",
           body := .object [("error", "failed to get signal")] }]) ∧
    (∀ e₁ e₂ : GoError, isErrNotFound e₁ = false → isErrNotFound e₂ = false →
      getSignalWith (.error e₁) = getSignalWith (.error e₂)) ∧
    (health (some err₁) = health (some err₂) ∧
      health (some err₁) =
        [{ status := 503, contentType := "application/json",
           body := .object [("error", "redis unhealthy")] }]) := by
  have hscan : ∀ (err : StoreError) (fetch : Option StoreError),
      listSignals (some err) fetch v query =
        [writeError StatusInternalServerError "failed to list signals"] := by
    intro err fetch
    unfold listSignals fetchSignals
    by_cases hp : query.Get "priority" ≠ ""
    · simp [if_pos hp, ListByPriority, ZRangeByScore]
    · simp [if_neg hp, ListByCreatedAt, ZRevRange]
  refine ⟨?_, ?_, ?_, ?_, ?_⟩
  · intro scan fetch scan' fetch' h₁ h₂
    have e₁ : listSignals scan fetch v query =
        [writeError StatusInternalServerError "failed to list signals"] := by
      simp only [listSignals, h₁]
    have e₂ : listSignals scan' fetch' v query =
        [writeError StatusInternalServerError "failed to list signals"] := by
      simp only [listSignals, h₂]
    exact ⟨e₁.trans e₂.symm, e₁⟩
  · intro fetch fetch'
    rw [hscan, hscan]
  · constructor <;> simp [getSignal, FindByID, HGetAll, getSignalWith, ProjError.toGo,
      isErrNotFound, writeError, writeJSON, StatusInternalServerError]
  · intro e₁ e₂ h₁ h₂
    simp [getSignalWith, h₁, h₂]
  · constructor <;> rfl

/-- Witness of C19: two different store errors on the three handlers. -/
theorem error_responses_independent_witness :
    listSignals (some ⟨"i/o timeout"⟩) none seeded [] =
      listSignals (some ⟨"connection refused"⟩) none seeded [] ∧
    getSignal (some ⟨"i/o timeout"⟩) seeded "signal-1" =
      getSignal (some ⟨"connection refused"⟩) seeded "signal-1" ∧
    health (some ⟨"i/o timeout"⟩) = health (some ⟨"connection refused"⟩) :=
  have h := error_responses_independent ⟨"i/o timeout"⟩ ⟨"connection refused"⟩ seeded []
    "signal-1"
  ⟨h.2.1 none none, h.2.2.1.1, h.2.2.2.2.1⟩

/-! ## The event parser -/

theorem matchField_eq_none (key : String)
    (h : ∀ name ∈ fieldNames, foldName name ≠ foldName key) : matchField key = none := by
  have hexact : fieldNames.find? (fun name => decide (name = key)) = none := by
    rw [List.find?_eq_none]
    intro name hname hp
    have : name = key := by simpa using hp
    exact h name hname (by rw [this])
  have hfold : fieldNames.find? (fun name => decide (foldName name = foldName key)) = none := by
    rw [List.find?_eq_none]
    intro name hname hp
    exact h name hname (by simpa using hp)
  unfold matchField
  rw [hexact, hfold]

theorem decodeMember_skip (state : SignalEvent × Option ParseError) (key : String)
    (value : JSON) (h : matchField key = none) : decodeMember state (key, value) = state := by
  simp [decodeMember, h]

theorem unmarshal_skip (pre post : List (String × JSON)) (key : String) (value : JSON)
    (h : matchField key = none) :
    unmarshalSignalEvent (.object (pre ++ (key, value) :: post)) =
      unmarshalSignalEvent (.object (pre ++ post)) := by
  simp only [unmarshalSignalEvent, List.foldl_append, List.foldl_cons,
    decodeMember_skip _ key value h]

/-- C17, counterexample. To the object with `action: created` and
`id: abc-123`, which ParseSignalEvent accepts, a member with the key `ID` is
added; `ID` is none of the eight names. The payload is accepted and parses to
an event whose id is the added value. With an added member `Title: 5` the
payload is rejected with a type error. The same on the payload text. -/
theorem unknown_key_counterexample :
    "ID" ∉ fieldNames ∧ "Title" ∉ fieldNames ∧
    unmarshalSignalEvent (.object createdMembers) =
      ({ SignalEvent.zero with Action := "created", ID := "abc-123" }, none) ∧
    unmarshalSignalEvent (.object (createdMembers ++ [("ID", .string "zzz")])) =
      ({ SignalEvent.zero with Action := "created", ID := "zzz" }, none) ∧
    unmarshalSignalEvent (.object (createdMembers ++ [("Title", .number "5")])) =
      ({ SignalEvent.zero with Action := "created", ID := "abc-123" },
        some (.typeError "number" "title")) ∧
    ParseSignalEvent readFlatObject "\x7b\"action\": \"created\", \"id\": \"abc-123\"\x7d" =
      ({ SignalEvent.zero with Action := "created", ID := "abc-123" }, none) ∧
    ParseSignalEvent readFlatObject
        "\x7b\"action\": \"created\", \"id\": \"abc-123\", \"ID\": \"zzz\"\x7d" =
      ({ SignalEvent.zero with Action := "created", ID := "zzz" }, none) := by
  refine ⟨by decide, by decide, by decide, by decide, by decide, by decide, by decide⟩

/-- C17, as the code has it. Adding to a JSON object payload, at any place, a
member whose key differs from each of the eight field names also when letter
case is ignored changes nothing: the payload parses to the same event and the
same error, so an accepted payload stays accepted with the same SignalEvent. -/
theorem unknown_fields_ignored (scan : String → Option JSON) (data data' : String)
    (pre post : List (String × JSON)) (key : String) (value : JSON)
    (hkey : ∀ name ∈ fieldNames, foldName name ≠ foldName key)
    (hdata : scan data = some (.object (pre ++ post)))
    (hdata' : scan data' = some (.object (pre ++ (key, value) :: post))) :
    unmarshalSignalEvent (.object (pre ++ (key, value) :: post)) =
      unmarshalSignalEvent (.object (pre ++ post)) ∧
    ParseSignalEvent scan data' = ParseSignalEvent scan data ∧
    ((ParseSignalEvent scan data).2 = none →
      (ParseSignalEvent scan data').2 = none ∧
      (ParseSignalEvent scan data').1 = (ParseSignalEvent scan data).1) := by
  have hskip := unmarshal_skip pre post key value (matchField_eq_none key hkey)
  have hparse : ParseSignalEvent scan data' = ParseSignalEvent scan data := by
    simp only [ParseSignalEvent, hdata, hdata', hskip]
  refine ⟨hskip, hparse, fun hok => ?_⟩
  rw [hparse]
  exact ⟨hok, rfl⟩

/-- Witness of the amended C17: the payload of
TestParseSignalEvent_UnknownFieldsIgnored, with and without `unknown_field`. -/
theorem unknown_fields_ignored_witness :
    (∀ name ∈ fieldNames, foldName name ≠ foldName "unknown_field") ∧
    readFlatObject "\x7b\"action\": \"created\", \"id\": \"abc-123\"\x7d" =
      some (.object (createdMembers ++ [])) ∧
    readFlatObject
        "\x7b\"action\": \"created\", \"id\": \"abc-123\", \"unknown_field\": \"value\"\x7d" =
      some (.object (createdMembers ++ ("unknown_field", .string "value") :: [])) ∧
    ParseSignalEvent readFlatObject
        "\x7b\"action\": \"created\", \"id\": \"abc-123\", \"unknown_field\": \"value\"\x7d" =
      ParseSignalEvent readFlatObject "\x7b\"action\": \"created\", \"id\": \"abc-123\"\x7d" :=
  ⟨by decide, rfl, rfl,
    (unknown_fields_ignored readFlatObject
      "\x7b\"action\": \"created\", \"id\": \"abc-123\"\x7d"
      "\x7b\"action\": \"created\", \"id\": \"abc-123\", \"unknown_field\": \"value\"\x7d"
      createdMembers [] "unknown_field" (.string "value") (by decide) rfl rfl).2.1⟩

/-! ## The consumer -/

theorem Apply_none_ok (tp : String → Option Int) (v : View) (e : SignalEvent) :
    ∃ w, Apply tp none v e = .ok w := by
  by_cases hd : e.Action = ActionDeleted
  · rw [Apply_deleted tp none v e hd]
    exact ⟨_, (evict_ok_iff none v _ e.ID).mpr ⟨rfl, rfl⟩⟩
  · rw [Apply_not_deleted tp none v e hd]
    exact ⟨_, (upsert_ok_iff tp none v _ e).mpr ⟨rfl, rfl⟩⟩

theorem Apply_some_error (tp : String → Option Int) (err : StoreError) (v : View)
    (e : SignalEvent) : Apply tp (some err) v e = .error err := by
  by_cases hd : e.Action = ActionDeleted
  · rw [Apply_deleted tp _ v e hd]; rfl
  · rw [Apply_not_deleted tp _ v e hd]; rfl

theorem ApplyCall_done (tp : String → Option Int) (v w : View) (e : SignalEvent)
    (h : Apply tp none v e = .ok w) : ApplyCall tp .done v e = (none, w) := by
  simp [ApplyCall, ExecOutcome.link, ExecOutcome.executed, h]

theorem ApplyCall_refused (tp : String → Option Int) (err : StoreError) (v : View)
    (e : SignalEvent) : ApplyCall tp (.refused err) v e = (some err, v) := by
  simp [ApplyCall, ExecOutcome.link, ExecOutcome.executed, Apply_some_error]

theorem ApplyCall_lost (tp : String → Option Int) (err : StoreError) (v w : View)
    (e : SignalEvent) (h : Apply tp none v e = .ok w) :
    ApplyCall tp (.lost err) v e = (some err, w) := by
  simp [ApplyCall, ExecOutcome.link, ExecOutcome.executed, Apply_some_error, h]

theorem ApplyCall_fst (tp : String → Option Int) (outcome : ExecOutcome) (v : View)
    (e : SignalEvent) : (ApplyCall tp outcome v e).1 = outcome.link := by
  obtain ⟨w, hw⟩ := Apply_none_ok tp v e
  cases outcome with
  | done => rw [ApplyCall_done tp v w e hw]; rfl
  | refused err => rw [ApplyCall_refused]; rfl
  | lost err => rw [ApplyCall_lost tp err v w e hw]; rfl

theorem applyWithRetry_effects (tp : String → Option Int) (e : SignalEvent) (v : View)
    (attempts : List (ExecOutcome × Bool)) :
    ∀ x ∈ (applyWithRetry tp e v attempts).2.2, ∃ err, x = Effect.apply e err := by
  induction attempts generalizing v with
  | nil => intro x hx; simp [applyWithRetry] at hx
  | cons attempt attempts ih =>
    obtain ⟨outcome, waited⟩ := attempt
    intro x hx
    unfold applyWithRetry at hx
    rcases hcall : ApplyCall tp outcome v e with ⟨err, w⟩
    rw [hcall] at hx
    cases err with
    | none =>
      simp only [List.mem_singleton] at hx
      exact ⟨none, hx⟩
    | some err =>
      cases waited with
      | true =>
        simp only [if_true, List.mem_cons] at hx
        rcases hx with hx | hx
        · exact ⟨some err, hx⟩
        · exact ih w x hx
      | false =>
        simp only [Bool.false_eq_true, if_false, List.mem_singleton] at hx
        exact ⟨some err, hx⟩

theorem applyWithRetry_success_iff (tp : String → Option Int) (e : SignalEvent) (v : View)
    (attempts : List (ExecOutcome × Bool)) :
    (applyWithRetry tp e v attempts).1 = some true ↔
      Effect.apply e none ∈ (applyWithRetry tp e v attempts).2.2 := by
  induction attempts generalizing v with
  | nil => simp [applyWithRetry]
  | cons attempt attempts ih =>
    obtain ⟨outcome, waited⟩ := attempt
    unfold applyWithRetry
    rcases hcall : ApplyCall tp outcome v e with ⟨err, w⟩
    cases err with
    | none => simp
    | some err =>
      cases waited with
      | true =>
        simp only [if_true, List.mem_cons]
        rw [ih w]
        constructor
        · exact fun h => Or.inr h
        · rintro (h | h)
          · cases h
          · exact h
      | false => simp

theorem commit_not_mem_applyWithRetry (tp : String → Option Int) (e : SignalEvent) (v : View)
    (attempts : List (ExecOutcome × Bool)) (m : Message) :
    Effect.commit m ∉ (applyWithRetry tp e v attempts).2.2 := by
  intro h
  obtain ⟨err, herr⟩ := applyWithRetry_effects tp e v attempts _ h
  cases herr

/-- C11 (commit discipline). In every run of processNext, whatever the fetch,
the payload and the store do: a commit is made only for the fetched message,
it is the last thing done, and either the payload failed to parse or an Apply
call for the parsed event returned success before it; when the fetch failed
nothing is done; when the retry loop did not end in a successful Apply
(abandoned on cancellation, or still running) no commit is made and no Apply
call returned success; and there is never more than one commit. -/
theorem commit_discipline (tp : String → Option Int) (scan : String → Option JSON) (v : View)
    (fetched : Except String Message) (attempts : List (ExecOutcome × Bool)) :
    (∀ m, Effect.commit m ∈ (processNext tp scan v fetched attempts).effects →
      fetched = .ok m ∧
      ∃ before, (processNext tp scan v fetched attempts).effects = before ++ [.commit m] ∧
        ((ParseSignalEvent scan m.Value).2 ≠ none ∨
          Effect.apply (ParseSignalEvent scan m.Value).1 none ∈ before)) ∧
    (∀ err, fetched = .error err → (processNext tp scan v fetched attempts).effects = []) ∧
    (∀ m, fetched = .ok m → (ParseSignalEvent scan m.Value).2 = none →
      (applyWithRetry tp (ParseSignalEvent scan m.Value).1 v attempts).1 ≠ some true →
      (∀ m', Effect.commit m' ∉ (processNext tp scan v fetched attempts).effects) ∧
      (∀ e', Effect.apply e' none ∉ (processNext tp scan v fetched attempts).effects)) ∧
    ((processNext tp scan v fetched attempts).effects.filter Effect.isCommit).length ≤ 1 := by
  cases fetched with
  | error err =>
    refine ⟨?_, ?_, ?_, ?_⟩
    · intro m hm; simp [processNext] at hm
    · intro err' _; rfl
    · intro m hm; cases hm
    · simp [processNext]
  | ok message =>
    rcases hparse : ParseSignalEvent scan message.Value with ⟨event, perr⟩
    cases perr with
    | some perr =>
      have hout : (processNext tp scan v (.ok message) attempts).effects =
          [.commit message] := by
        simp only [processNext, hparse]
      rw [hout]
      refine ⟨?_, ?_, ?_, ?_⟩
      · intro m hm
        have hmm : m = message := by simpa using hm
        subst hmm
        exact ⟨rfl, [], rfl, Or.inl (by rw [hparse]; simp)⟩
      · intro err' h; cases h
      · intro m hm hok
        cases hm
        rw [hparse] at hok
        cases hok
      · simp [Effect.isCommit]
    | none =>
      rcases hretry : applyWithRetry tp event v attempts with ⟨res, w, effects⟩
      have hnocommit : ∀ m, Effect.commit m ∉ effects := by
        intro m
        have := commit_not_mem_applyWithRetry tp event v attempts m
        rwa [hretry] at this
      have hall : ∀ x ∈ effects, ∃ err, x = Effect.apply event err := by
        have := applyWithRetry_effects tp event v attempts
        rwa [hretry] at this
      have hsucc : res = some true ↔ Effect.apply event none ∈ effects := by
        have := applyWithRetry_success_iff tp event v attempts
        rwa [hretry] at this
      have hfilter : effects.filter Effect.isCommit = [] := by
        rw [List.filter_eq_nil_iff]
        intro x hx
        obtain ⟨err, rfl⟩ := hall x hx
        simp [Effect.isCommit]
      have hout : (processNext tp scan v (.ok message) attempts).effects =
          if res = some true then effects ++ [.commit message] else effects := by
        simp only [processNext, hparse, hretry]
        cases res with
        | none => simp
        | some b => cases b <;> simp
      rw [hout]
      by_cases hres : res = some true
      · rw [if_pos hres]
        refine ⟨?_, ?_, ?_, ?_⟩
        · intro m hm
          rcases List.mem_append.mp hm with hm | hm
          · exact absurd hm (hnocommit m)
          · have hmm : m = message := by simpa using hm
            subst hmm
            refine ⟨rfl, effects, rfl, Or.inr ?_⟩
            rw [hparse]
            exact hsucc.mp hres
        · intro err' h; cases h
        · intro m hm _ hno
          cases hm
          rw [hparse, hretry] at hno
          exact absurd hres hno
        · rw [List.filter_append, hfilter]
          simp [Effect.isCommit]
      · rw [if_neg hres]
        refine ⟨?_, ?_, ?_, ?_⟩
        · intro m hm
          exact absurd hm (hnocommit m)
        · intro err' h; cases h
        · intro m _ _ _
          refine ⟨hnocommit, ?_⟩
          intro e' he'
          obtain ⟨err, herr⟩ := hall _ he'
          cases herr
          exact hres (hsucc.mpr he')
        · rw [hfilter]
          simp

/-- Witness of C11: the `created` message with a store that refuses the first
Apply and runs the second; the commit comes last, after the successful Apply. -/
theorem commit_discipline_witness :
    (processNext rfc3339 readFlatObject View.empty (.ok createdMessage)
        [(.refused ⟨"i/o timeout"⟩, true), (.done, true)]).effects =
      [.apply createdMessageEvent (some ⟨"i/o timeout"⟩), .apply createdMessageEvent none,
        .commit createdMessage] ∧
    (∃ before,
      (processNext rfc3339 readFlatObject View.empty (.ok createdMessage)
        [(.refused ⟨"i/o timeout"⟩, true), (.done, true)]).effects =
        before ++ [.commit createdMessage] ∧
      ((ParseSignalEvent readFlatObject createdMessage.Value).2 ≠ none ∨
        Effect.apply (ParseSignalEvent readFlatObject createdMessage.Value).1 none ∈ before)) ∧
    (processNext rfc3339 readFlatObject View.empty (.ok createdMessage)
        [(.refused ⟨"i/o timeout"⟩, true), (.lost ⟨"i/o timeout"⟩, false)]).effects =
      [.apply createdMessageEvent (some ⟨"i/o timeout"⟩),
        .apply createdMessageEvent (some ⟨"i/o timeout"⟩)] :=
  have heff : (processNext rfc3339 readFlatObject View.empty (.ok createdMessage)
      [(.refused ⟨"i/o timeout"⟩, true), (.done, true)]).effects =
      [.apply createdMessageEvent (some ⟨"i/o timeout"⟩), .apply createdMessageEvent none,
        .commit createdMessage] := by decide
  ⟨heff,
    ((commit_discipline rfc3339 readFlatObject View.empty (.ok createdMessage)
      [(.refused ⟨"i/o timeout"⟩, true), (.done, true)]).1 createdMessage
        (by rw [heff]; decide)).2,
    by decide⟩

theorem Apply_idem {tp : String → Option Int} {l₁ l₂ : Option StoreError} {v w u : View}
    {e : SignalEvent} (h₁ : Apply tp l₁ v e = .ok w) (h₂ : Apply tp l₂ w e = .ok u) :
    u = w := by
  by_cases hd : e.Action = ActionDeleted
  · rw [Apply_deleted tp _ _ e hd] at h₁ h₂
    exact evict_evict h₁ h₂
  · rw [Apply_not_deleted tp _ _ e hd] at h₁ h₂
    exact upsert_upsert h₁ h₂

theorem Apply_none_fixed {tp : String → Option Int} {v w : View} {e : SignalEvent}
    (h : Apply tp none v e = .ok w) : Apply tp none w e = .ok w := by
  obtain ⟨u, hu⟩ := Apply_none_ok tp w e
  rw [hu, Apply_idem h hu]

theorem applyWithRetry_eventually (tp : String → Option Int) (e : SignalEvent) (w : View)
    (failed : List (ExecOutcome × Bool)) (last : Bool) (rest : List (ExecOutcome × Bool))
    (hfailed : ∀ a ∈ failed, a.1 ≠ ExecOutcome.done ∧ a.2 = true) (u : View)
    (hu : Apply tp none u e = .ok w) :
    applyWithRetry tp e u (failed ++ (.done, last) :: rest) =
      (some true, w, failed.map (fun a => Effect.apply e a.1.link) ++ [.apply e none]) := by
  induction failed generalizing u with
  | nil =>
    simp only [List.nil_append, applyWithRetry, ApplyCall_done tp u w e hu, List.map_nil]
  | cons attempt failed ih =>
    obtain ⟨outcome, waited⟩ := attempt
    have hthis := hfailed (outcome, waited) (List.mem_cons_self _ _)
    have hrest : ∀ a ∈ failed, a.1 ≠ ExecOutcome.done ∧ a.2 = true :=
      fun a ha => hfailed a (List.mem_cons_of_mem _ ha)
    have hwaited : waited = true := hthis.2
    subst hwaited
    cases outcome with
    | done => exact absurd rfl hthis.1
    | refused err =>
      rw [List.cons_append, applyWithRetry, ApplyCall_refused]
      simp only [if_true]
      rw [ih hrest u hu]
      rfl
    | lost err =>
      rw [List.cons_append, applyWithRetry, ApplyCall_lost tp err u w e hu]
      simp only [if_true]
      rw [ih hrest w (Apply_none_fixed hu)]
      rfl

/-- C12 (poison skip). For a fetched message whose payload ParseSignalEvent
rejects, processNext returns having made one commit, of that message, and no
Apply call, with the view as it was, whatever the store would have done. A
following message with a valid created event is then applied and committed:
once the store runs an Apply and says so, after any number of failed calls
with the scope alive, processNext returns with the view of a successful Apply
of the event, FindByID finds its record, and the commit of that message is the
last thing done. -/
theorem poison_skip (tp : String → Option Int) (scan : String → Option JSON) (v : View)
    (message : Message) (attempts : List (ExecOutcome × Bool))
    (hbad : (ParseSignalEvent scan message.Value).2 ≠ none) :
    (processNext tp scan v (.ok message) attempts).returned = true ∧
    (processNext tp scan v (.ok message) attempts).view = v ∧
    (processNext tp scan v (.ok message) attempts).effects = [.commit message] ∧
    ∀ (next : Message) (event : SignalEvent) (w : View) (failed : List (ExecOutcome × Bool))
      (last : Bool) (rest : List (ExecOutcome × Bool)),
      ParseSignalEvent scan next.Value = (event, none) → event.Action = ActionCreated →
      Apply tp none v event = .ok w →
      (∀ a ∈ failed, a.1 ≠ ExecOutcome.done ∧ a.2 = true) →
      (processNext tp scan (processNext tp scan v (.ok message) attempts).view (.ok next)
        (failed ++ (.done, last) :: rest)).returned = true ∧
      (processNext tp scan (processNext tp scan v (.ok message) attempts).view (.ok next)
        (failed ++ (.done, last) :: rest)).view = w ∧
      (processNext tp scan (processNext tp scan v (.ok message) attempts).view (.ok next)
        (failed ++ (.done, last) :: rest)).effects =
          failed.map (fun a => Effect.apply event a.1.link) ++
            [.apply event none, .commit next] ∧
      FindByID none w event.ID =
        .ok { ID := event.ID, Title := event.Title, Content := event.Content,
              Priority := event.Priority, Author := event.Author,
              CreatedAt := event.CreatedAt, UpdatedAt := event.UpdatedAt } := by
  rcases hparse : ParseSignalEvent scan message.Value with ⟨event₀, perr⟩
  rw [hparse] at hbad
  cases perr with
  | none => exact absurd rfl hbad
  | some perr =>
    have hview : (processNext tp scan v (.ok message) attempts).view = v := by
      simp only [processNext, hparse]
    refine ⟨by simp only [processNext, hparse], hview, by simp only [processNext, hparse], ?_⟩
    intro next event w failed last rest hnext hcreated hw hfailed
    rw [hview]
    have hretry := applyWithRetry_eventually tp event w failed last rest hfailed v hw
    refine ⟨by simp only [processNext, hnext, hretry], by simp only [processNext, hnext, hretry],
      ?_, ?_⟩
    · simp only [processNext, hnext, hretry, List.append_assoc, List.singleton_append]
    · have hnd : event.Action ≠ ActionDeleted := by rw [hcreated]; exact created_ne_deleted
      rw [Apply_not_deleted tp none v event hnd] at hw
      have hlen : ¬ (hsetAll (v.hashes (signalKey event.ID)) event.Fields).length = 0 :=
        fun hl => hsetAll_fields_ne_nil _ event (List.length_eq_zero.mp hl)
      simp only [FindByID, HGetAll, upsert_hashes hw, Function.update_same, if_neg hlen,
        signalFromMap_hsetAll_fields, signalFromMap_fields]

/-- Witness of C12: malformed JSON at offset 7, then a valid `created` event at
offset 8, on the empty view with the store up. -/
theorem poison_skip_witness :
    (ParseSignalEvent readFlatObject poisonMessage.Value).2 ≠ none ∧
    (processNext rfc3339 readFlatObject View.empty (.ok poisonMessage) []).effects =
      [.commit poisonMessage] ∧
    ParseSignalEvent readFlatObject createdMessage.Value = (createdMessageEvent, none) ∧
    (processNext rfc3339 readFlatObject
      (processNext rfc3339 readFlatObject View.empty (.ok poisonMessage) []).view
      (.ok createdMessage) ([] ++ (.done, true) :: [])).effects =
        [].map (fun a : ExecOutcome × Bool => Effect.apply createdMessageEvent a.1.link) ++
          [.apply createdMessageEvent none, .commit createdMessage] ∧
    FindByID none (applied View.empty createdMessageEvent) createdMessageEvent.ID =
      .ok { ID := createdMessageEvent.ID, Title := createdMessageEvent.Title,
            Content := createdMessageEvent.Content, Priority := createdMessageEvent.Priority,
            Author := createdMessageEvent.Author, CreatedAt := createdMessageEvent.CreatedAt,
            UpdatedAt := createdMessageEvent.UpdatedAt } :=
  have h := poison_skip rfc3339 readFlatObject View.empty poisonMessage [] (by decide)
  have hnext := h.2.2.2 createdMessage createdMessageEvent
    (applied View.empty createdMessageEvent) [] true [] (by decide) rfl rfl
    (fun a ha => absurd ha (List.not_mem_nil a))
  ⟨by decide, h.2.2.1, by decide, hnext.2.2.1, hnext.2.2.2⟩

/-! ## One batch per Apply -/

theorem upsert_effects {tp : String → Option Int} {link : Option StoreError} {v w : View}
    {e : SignalEvent} (h : upsert tp link v e = .ok w) :
    FindByID none w e.ID =
      .ok { ID := e.ID, Title := e.Title, Content := e.Content, Priority := e.Priority,
            Author := e.Author, CreatedAt := e.CreatedAt, UpdatedAt := e.UpdatedAt } ∧
    (w.zsets keyByCreatedAt).score? e.ID = some (parseTimestamp tp e.CreatedAt) ∧
    (w.zsets keyByPriority).score? e.ID = some (priorityScores e.Priority) := by
  refine ⟨?_, ?_, ?_⟩
  · have hlen : ¬ (hsetAll (v.hashes (signalKey e.ID)) e.Fields).length = 0 :=
      fun hl => hsetAll_fields_ne_nil _ e (List.length_eq_zero.mp hl)
    simp only [FindByID, HGetAll, upsert_hashes h, Function.update_same, if_neg hlen,
      signalFromMap_hsetAll_fields, signalFromMap_fields]
  · rw [upsert_byCreatedAt h]
    exact (ZSet.score?_eq_some _ _ _).mpr ((ZSet.mem_add _ _ _ _).mpr (Or.inl rfl))
  · rw [upsert_byPriority h]
    exact (ZSet.score?_eq_some _ _ _).mpr ((ZSet.mem_add _ _ _ _).mpr (Or.inl rfl))

theorem evict_effects {link : Option StoreError} {v w : View} {id : String}
    (h : evict link v id = .ok w) :
    w.hashes (signalKey id) = [] ∧
    (w.zsets keyByCreatedAt).score? id = none ∧
    (w.zsets keyByPriority).score? id = none := by
  refine ⟨?_, ?_, ?_⟩
  · rw [evict_hashes h, Function.update_same]
  · rw [evict_byCreatedAt h]
    exact (ZSet.score?_eq_none _ _).mpr (ZSet.not_mem_members_rem _ _)
  · rw [evict_byPriority h]
    exact (ZSet.score?_eq_none _ _).mpr (ZSet.not_mem_members_rem _ _)

/-- C16, counterexample. The created event of `signal-1` is applied to the
empty view; the store runs the batch but the reply does not reach the client
in time. Apply returns the timeout error, and yet the record and both index
entries are there. -/
theorem apply_error_after_run_counterexample :
    (ApplyCall rfc3339 (.lost ⟨"i/o timeout"⟩) View.empty
      (sampleEvent ActionCreated "signal-1")).1 = some ⟨"i/o timeout"⟩ ∧
    FindByID none View.empty "signal-1" = .error .ErrNotFound ∧
    FindByID none (ApplyCall rfc3339 (.lost ⟨"i/o timeout"⟩) View.empty
      (sampleEvent ActionCreated "signal-1")).2 "signal-1" =
        .ok (SignalFromMap (sampleEvent ActionCreated "signal-1").Fields) ∧
    ((ApplyCall rfc3339 (.lost ⟨"i/o timeout"⟩) View.empty
      (sampleEvent ActionCreated "signal-1")).2.zsets keyByCreatedAt).members =
        ["signal-1"] ∧
    ((ApplyCall rfc3339 (.lost ⟨"i/o timeout"⟩) View.empty
      (sampleEvent ActionCreated "signal-1")).2.zsets keyByPriority).members =
        ["signal-1"] := by
  refine ⟨by decide, by decide, by decide, by decide, by decide⟩

/-- C16, as the code has it. The writes of one Apply are one MULTI/EXEC batch.
When Apply returns success the view is the one the whole batch leaves: for a
deleted event the record and both index entries of the id are gone, for any
other event the record holds the event's fields and both indexes hold the id at
the event's scores. When Apply returns an error the view is either unchanged
or the one the whole batch leaves, never one with part of the writes; it is
unchanged when the store did not run the batch. In every case a following
successful Apply of the same event gives the view a first successful Apply
would have given. -/
theorem apply_all_or_nothing (tp : String → Option Int) (outcome : ExecOutcome) (v : View)
    (e : SignalEvent) :
    ((ApplyCall tp outcome v e).1 = none →
      Apply tp none v e = .ok (ApplyCall tp outcome v e).2 ∧
      (e.Action = ActionDeleted →
        (ApplyCall tp outcome v e).2.hashes (signalKey e.ID) = [] ∧
        ((ApplyCall tp outcome v e).2.zsets keyByCreatedAt).score? e.ID = none ∧
        ((ApplyCall tp outcome v e).2.zsets keyByPriority).score? e.ID = none) ∧
      (e.Action ≠ ActionDeleted →
        FindByID none (ApplyCall tp outcome v e).2 e.ID =
          .ok { ID := e.ID, Title := e.Title, Content := e.Content, Priority := e.Priority,
                Author := e.Author, CreatedAt := e.CreatedAt, UpdatedAt := e.UpdatedAt } ∧
        ((ApplyCall tp outcome v e).2.zsets keyByCreatedAt).score? e.ID =
          some (parseTimestamp tp e.CreatedAt) ∧
        ((ApplyCall tp outcome v e).2.zsets keyByPriority).score? e.ID =
          some (priorityScores e.Priority))) ∧
    (∀ err, (ApplyCall tp outcome v e).1 = some err →
      (ApplyCall tp outcome v e).2 = v ∨
      Apply tp none v e = .ok (ApplyCall tp outcome v e).2) ∧
    (outcome.executed = false → (ApplyCall tp outcome v e).2 = v) ∧
    Apply tp none (ApplyCall tp outcome v e).2 e = Apply tp none v e := by
  obtain ⟨w, hw⟩ := Apply_none_ok tp v e
  have hwhole : ∀ u, Apply tp none v e = .ok u →
      (e.Action = ActionDeleted →
        u.hashes (signalKey e.ID) = [] ∧
        (u.zsets keyByCreatedAt).score? e.ID = none ∧
        (u.zsets keyByPriority).score? e.ID = none) ∧
      (e.Action ≠ ActionDeleted →
        FindByID none u e.ID =
          .ok { ID := e.ID, Title := e.Title, Content := e.Content, Priority := e.Priority,
                Author := e.Author, CreatedAt := e.CreatedAt, UpdatedAt := e.UpdatedAt } ∧
        (u.zsets keyByCreatedAt).score? e.ID = some (parseTimestamp tp e.CreatedAt) ∧
        (u.zsets keyByPriority).score? e.ID = some (priorityScores e.Priority)) := by
    intro u hu
    constructor
    · intro hd
      rw [Apply_deleted tp none v e hd] at hu
      exact evict_effects hu
    · intro hnd
      rw [Apply_not_deleted tp none v e hnd] at hu
      exact upsert_effects hu
  cases outcome with
  | done =>
    rw [ApplyCall_done tp v w e hw]
    refine ⟨fun _ => ⟨hw, hwhole w hw⟩, fun err h => (by cases h), fun h => (by cases h), ?_⟩
    rw [hw, Apply_none_fixed hw]
  | refused err =>
    rw [ApplyCall_refused]
    exact ⟨fun h => (by cases h), fun _ _ => Or.inl rfl, fun _ => rfl, rfl⟩
  | lost err =>
    rw [ApplyCall_lost tp err v w e hw]
    refine ⟨fun h => (by cases h), fun _ _ => Or.inr hw, fun h => (by cases h), ?_⟩
    rw [hw, Apply_none_fixed hw]

/-- Witness of the amended C16: the created event of `signal-1` on the empty
view, with the reply lost and with the batch refused. -/
theorem apply_all_or_nothing_witness :
    (ApplyCall rfc3339 (.lost ⟨"i/o timeout"⟩) View.empty
      (sampleEvent ActionCreated "signal-1")).1 = some ⟨"i/o timeout"⟩ ∧
    ((ApplyCall rfc3339 (.lost ⟨"i/o timeout"⟩) View.empty
        (sampleEvent ActionCreated "signal-1")).2 = View.empty ∨
      Apply rfc3339 none View.empty (sampleEvent ActionCreated "signal-1") =
        .ok (ApplyCall rfc3339 (.lost ⟨"i/o timeout"⟩) View.empty
          (sampleEvent ActionCreated "signal-1")).2) ∧
    (ExecOutcome.refused ⟨"connection refused"⟩).executed = false ∧
    (ApplyCall rfc3339 (.refused ⟨"connection refused"⟩) View.empty
      (sampleEvent ActionCreated "signal-1")).2 = View.empty :=
  ⟨by decide,
    (apply_all_or_nothing rfc3339 (.lost ⟨"i/o timeout"⟩) View.empty
      (sampleEvent ActionCreated "signal-1")).2.1 ⟨"i/o timeout"⟩ (by decide),
    rfl,
    (apply_all_or_nothing rfc3339 (.refused ⟨"connection refused"⟩) View.empty
      (sampleEvent ActionCreated "signal-1")).2.2.1 rfl⟩

/-! ## Events for different ids -/

theorem ZSet.eq_of_mem_iff (z₁ z₂ : ZSet) (h : ∀ x, x ∈ z₁.entries ↔ x ∈ z₂.entries) :
    z₁ = z₂ := by
  apply ZSet.ext
  apply List.eq_of_perm_of_sorted _ z₁.sorted z₂.sorted
  exact (List.perm_ext_iff_of_nodup (List.Nodup.of_map ZEntry.member z₁.nodup)
    (List.Nodup.of_map ZEntry.member z₂.nodup)).mpr h

theorem ZSet.add_add_comm (z : ZSet) (s₁ s₂ : Int) (m₁ m₂ : String) (hne : m₁ ≠ m₂) :
    (z.add s₁ m₁).add s₂ m₂ = (z.add s₂ m₂).add s₁ m₁ := by
  apply ZSet.eq_of_mem_iff
  intro x
  simp only [ZSet.mem_add]
  constructor
  · rintro (hx | ⟨hx | ⟨hx, h1⟩, h2⟩)
    · exact Or.inr ⟨Or.inl hx, by rw [hx]; exact fun h => hne h.symm⟩
    · exact Or.inl hx
    · exact Or.inr ⟨Or.inr ⟨hx, h2⟩, h1⟩
  · rintro (hx | ⟨hx | ⟨hx, h2⟩, h1⟩)
    · exact Or.inr ⟨Or.inl hx, by rw [hx]; exact hne⟩
    · exact Or.inl hx
    · exact Or.inr ⟨Or.inr ⟨hx, h1⟩, h2⟩

theorem ZSet.add_rem_comm (z : ZSet) (s : Int) (m₁ m₂ : String) (hne : m₁ ≠ m₂) :
    (z.add s m₁).rem m₂ = (z.rem m₂).add s m₁ := by
  apply ZSet.eq_of_mem_iff
  intro x
  simp only [ZSet.mem_add, ZSet.mem_rem]
  constructor
  · rintro ⟨hx | ⟨hx, h1⟩, h2⟩
    · exact Or.inl hx
    · exact Or.inr ⟨⟨hx, h2⟩, h1⟩
  · rintro (hx | ⟨⟨hx, h2⟩, h1⟩)
    · exact ⟨Or.inl hx, by rw [hx]; exact hne⟩
    · exact ⟨Or.inr ⟨hx, h1⟩, h2⟩

theorem ZSet.rem_rem_comm (z : ZSet) (m₁ m₂ : String) :
    (z.rem m₁).rem m₂ = (z.rem m₂).rem m₁ := by
  apply ZSet.eq_of_mem_iff
  intro x
  simp only [ZSet.mem_rem]
  constructor
  · rintro ⟨⟨hx, h1⟩, h2⟩
    exact ⟨⟨hx, h2⟩, h1⟩
  · rintro ⟨⟨hx, h2⟩, h1⟩
    exact ⟨⟨hx, h1⟩, h2⟩

/-- The index writes of two events for different members can be swapped. -/
theorem ZSet.steps_comm (z : ZSet) (p₁ p₂ : Prop) [Decidable p₁] [Decidable p₂]
    (s₁ s₂ : Int) (m₁ m₂ : String) (hne : m₁ ≠ m₂) :
    (if p₂ then (if p₁ then z.rem m₁ else z.add s₁ m₁).rem m₂
      else (if p₁ then z.rem m₁ else z.add s₁ m₁).add s₂ m₂) =
    (if p₁ then (if p₂ then z.rem m₂ else z.add s₂ m₂).rem m₁
      else (if p₂ then z.rem m₂ else z.add s₂ m₂).add s₁ m₁) := by
  by_cases h1 : p₁ <;> by_cases h2 : p₂
  · simp only [if_pos h1, if_pos h2]
    exact ZSet.rem_rem_comm z m₁ m₂
  · simp only [if_pos h1, if_neg h2]
    exact (ZSet.add_rem_comm z s₂ m₂ m₁ hne.symm).symm
  · simp only [if_neg h1, if_pos h2]
    exact ZSet.add_rem_comm z s₁ m₁ m₂ hne
  · simp only [if_neg h1, if_neg h2]
    exact ZSet.add_add_comm z s₁ s₂ m₁ m₂ hne

theorem ZSet.score?_congr (z₁ z₂ : ZSet) (id : String)
    (h : ∀ s : Int, (⟨s, id⟩ : ZEntry) ∈ z₁.entries ↔ (⟨s, id⟩ : ZEntry) ∈ z₂.entries) :
    z₁.score? id = z₂.score? id := by
  apply Option.ext
  intro s
  rw [Option.mem_def, Option.mem_def, ZSet.score?_eq_some, ZSet.score?_eq_some]
  exact h s

theorem ZSet.score?_add_of_ne (z : ZSet) (s : Int) (member id : String) (hne : id ≠ member) :
    (z.add s member).score? id = z.score? id := by
  apply ZSet.score?_congr
  intro s'
  rw [ZSet.mem_add]
  constructor
  · rintro (hx | ⟨hx, _⟩)
    · exact absurd (congrArg ZEntry.member hx) hne
    · exact hx
  · exact fun hx => Or.inr ⟨hx, hne⟩

theorem ZSet.score?_rem_of_ne (z : ZSet) (member id : String) (hne : id ≠ member) :
    (z.rem member).score? id = z.score? id := by
  apply ZSet.score?_congr
  intro s'
  rw [ZSet.mem_rem]
  exact ⟨fun hx => hx.1, fun hx => ⟨hx, hne⟩⟩

theorem apply_hashes {tp : String → Option Int} {link : Option StoreError} {v w : View}
    {e : SignalEvent} (h : Apply tp link v e = .ok w) :
    w.hashes = Function.update v.hashes (signalKey e.ID)
      (if e.Action = ActionDeleted then []
       else hsetAll (v.hashes (signalKey e.ID)) e.Fields) := by
  by_cases hd : e.Action = ActionDeleted
  · rw [Apply_deleted tp link v e hd] at h
    rw [evict_hashes h, if_pos hd]
  · rw [Apply_not_deleted tp link v e hd] at h
    rw [upsert_hashes h, if_neg hd]

/-- C21 (events for different ids commute and do not interfere). For every
view and every two events with different ids, whatever their actions, Apply of
the first and then of the second leaves the same view as Apply of the second
and then of the first; and Apply of an event leaves the primary record of every
other id, and the score of every other id in the chronological and in the
priority index, as they were. -/
theorem different_ids_commute (tp : String → Option Int) (v : View) (e₁ e₂ : SignalEvent)
    (hne : e₁.ID ≠ e₂.ID) (l₁ l₂ l₃ l₄ : Option StoreError) (w₁ w₁₂ w₂ w₂₁ : View)
    (h₁ : Apply tp l₁ v e₁ = .ok w₁) (h₁₂ : Apply tp l₂ w₁ e₂ = .ok w₁₂)
    (h₂ : Apply tp l₃ v e₂ = .ok w₂) (h₂₁ : Apply tp l₄ w₂ e₁ = .ok w₂₁) :
    w₁₂ = w₂₁ ∧
    ∀ id : String, id ≠ e₁.ID →
      w₁.hashes (signalKey id) = v.hashes (signalKey id) ∧
      (w₁.zsets keyByCreatedAt).score? id = (v.zsets keyByCreatedAt).score? id ∧
      (w₁.zsets keyByPriority).score? id = (v.zsets keyByPriority).score? id := by
  have hkey : signalKey e₁.ID ≠ signalKey e₂.ID := fun hk => hne (signalKey_injective hk)
  constructor
  · apply View.ext
    · rw [apply_hashes h₁₂, apply_hashes h₂₁, apply_hashes h₁, apply_hashes h₂,
        Function.update_noteq hkey.symm, Function.update_noteq hkey]
      exact Function.update_comm hkey _ _ _
    · funext key
      rw [apply_zsets h₁₂ key, apply_zsets h₂₁ key, apply_zsets h₁ key, apply_zsets h₂ key]
      by_cases h1 : key = keyByCreatedAt
      · simp only [if_pos h1]
        exact ZSet.steps_comm _ _ _ _ _ _ _ hne
      · simp only [if_neg h1]
        by_cases h2 : key = keyByPriority
        · simp only [if_pos h2]
          exact ZSet.steps_comm _ _ _ _ _ _ _ hne
        · simp only [if_neg h2]
  · intro id hid
    have hk : signalKey id ≠ signalKey e₁.ID := fun hk => hid (signalKey_injective hk)
    refine ⟨?_, ?_, ?_⟩
    · rw [apply_hashes h₁, Function.update_noteq hk]
    · rw [apply_zsets h₁ keyByCreatedAt]
      simp only [if_true]
      by_cases hd : e₁.Action = ActionDeleted
      · rw [if_pos hd, ZSet.score?_rem_of_ne _ _ _ hid]
      · rw [if_neg hd, ZSet.score?_add_of_ne _ _ _ _ hid]
    · rw [apply_zsets h₁ keyByPriority]
      simp only [if_neg keyByCreatedAt_ne_keyByPriority.symm, if_true]
      by_cases hd : e₁.Action = ActionDeleted
      · rw [if_pos hd, ZSet.score?_rem_of_ne _ _ _ hid]
      · rw [if_neg hd, ZSet.score?_add_of_ne _ _ _ _ hid]

/-- Witness of C21: on the view holding `signal-1`, the delete of `signal-1`
and the creation of `low-1`, in both orders. -/
theorem different_ids_commute_witness :
    (deleteEvent "signal-1").ID ≠ lowEvent.ID ∧
    Apply rfc3339 none seeded (deleteEvent "signal-1") = .ok deletedView ∧
    Apply rfc3339 none deletedView lowEvent = .ok (applied deletedView lowEvent) ∧
    Apply rfc3339 none seeded lowEvent = .ok (applied seeded lowEvent) ∧
    Apply rfc3339 none (applied seeded lowEvent) (deleteEvent "signal-1") =
      .ok (applied (applied seeded lowEvent) (deleteEvent "signal-1")) ∧
    applied deletedView lowEvent =
      applied (applied seeded lowEvent) (deleteEvent "signal-1") ∧
    (applied seeded lowEvent).hashes (signalKey "signal-1") =
      seeded.hashes (signalKey "signal-1") :=
  have h := different_ids_commute rfc3339 seeded (deleteEvent "signal-1") lowEvent
    (by decide) none none none none deletedView (applied deletedView lowEvent)
    (applied seeded lowEvent) (applied (applied seeded lowEvent) (deleteEvent "signal-1"))
    rfl rfl rfl rfl
  have h' := different_ids_commute rfc3339 seeded lowEvent (deleteEvent "signal-1")
    (by decide) none none none none (applied seeded lowEvent)
    (applied (applied seeded lowEvent) (deleteEvent "signal-1")) deletedView
    (applied deletedView lowEvent) rfl rfl rfl rfl
  ⟨by decide, rfl, rfl, rfl, rfl, h.1, (h'.2 "signal-1" (by decide)).1⟩

end Nexus
